import Mathlib

/-
Verification development for the race-simulation engine of
src/models/f1_lstm_strategy_sim.py.

The Python engine is shallowly embedded below: Python dicts keyed by driver
name become association lists (insertion ordered, last assignment wins, as in
Python), floats become rationals, the external LSTM lap-time predictor
(LSTMLapTimeModel.predict_sequence) becomes an abstract function parameter
of type List Step -> List Rat, and the single place where the engine can
raise (the numpy indexing yhat_seq[len(hist)-1]) is modelled with Option:
a none result of simulate corresponds to an IndexError escaping the loop.
-/

set_option linter.unusedVariables false

namespace F1Sim

/-- Logical per-lap feature step handed to the predictor, mirroring the
step dict built in LSTMSimulator.simulate (the per-lap weather override
dict weather_by_lap, which no claim concerns, is not modelled; the
optional numeric weather fields come from default_weather). -/
structure Step where
  driver : String
  team : String
  circuit : String
  compound : String
  lap_number : Nat
  tyre_age : Nat
  is_sc : Bool
  is_vsc : Bool
  rain : Bool
  air_temp : Option ℚ
  track_temp : Option ℚ
  humidity : Option ℚ
  wind_speed : Option ℚ
deriving DecidableEq

/-- Per-driver mutable record, mirroring the state[name] dict of simulate. -/
structure DriverState where
  team : String
  compound : String
  tyre_age : Nat
  total_time : ℚ
  grid : Nat
  running : Bool
deriving DecidableEq

instance : Inhabited DriverState :=
  ⟨{ team := "", compound := "", tyre_age := 0, total_time := 0, grid := 0,
     running := false }⟩

/-- Default weather dict: .get of a missing key yields None (rain: False). -/
structure Weather where
  rain : Bool := false
  air_temp : Option ℚ := none
  track_temp : Option ℚ := none
  humidity : Option ℚ := none
  wind_speed : Option ℚ := none
deriving DecidableEq

structure PitEvent where
  lap : Nat
  compound : String
deriving DecidableEq

structure DriverSpec where
  name : String
  team : String
  grid : Nat
  start_compound : String
deriving DecidableEq

/-- RaceConfig dataclass (weather_by_lap omitted, see module comment). -/
structure RaceConfig where
  circuit : String
  total_laps : Nat
  drivers : List DriverSpec
  strategy : List (String × List PitEvent) := []
  safety_cars : List (Nat × Nat) := []
  dnfs : List (String × Nat) := []
  default_weather : Weather := {}
  default_pit_loss : ℚ := 22
deriving DecidableEq

abbrev StMap := List (String × DriverState)
abbrev HMap := List (String × List Step)

/-- Python dict read with a default for a missing key. -/
def getSt (st : StMap) (name : String) : DriverState :=
  (st.lookup name).getD default

def getHist (h : HMap) (name : String) : List Step :=
  (h.lookup name).getD []

/-- Pointwise value update of one key of a Python dict (no-op if absent). -/
def updateKey (l : List (String × α)) (k : String) (f : α → α) :
    List (String × α) :=
  l.map fun p => if p.1 = k then (p.1, f p.2) else p

/-- Python dict assignment d[k] = v: overwrite in place if the key exists,
otherwise append at the end (dicts are insertion ordered). -/
def dictInsert (l : List (String × α)) (k : String) (v : α) :
    List (String × α) :=
  if (l.lookup k).isSome then updateKey l k (fun _ => v) else l ++ [(k, v)]

/-- Python slice l[-k:]: for k = 0 this is the whole list. -/
def pyTakeLast (k : Nat) (l : List α) : List α :=
  if k = 0 then l else l.drop (l.length - k)

/-- config.strategy.get(name, []). -/
def strategyFor (config : RaceConfig) (name : String) : List PitEvent :=
  (config.strategy.lookup name).getD []

/-- will_pit = any(e.lap == lap for e in config.strategy.get(name, [])). -/
def willPit (config : RaceConfig) (name : String) (lap : Nat) : Bool :=
  (strategyFor config name).any fun e => e.lap == lap

/-- The compound of the first pit event of this driver at this lap,
[e.compound for e in config.strategy[name] if e.lap == lap][0]. -/
def pitTarget (config : RaceConfig) (name : String) (lap : Nat) :
    Option String :=
  (((strategyFor config name).filter fun e => e.lap == lap).map
    (·.compound)).head?

/-- LSTMSimulator._is_sc: lap is under safety car iff it falls inside some
closed window [a, b]. -/
def isSc (lap : Nat) (sc_windows : List (Nat × Nat)) : Bool :=
  sc_windows.any fun ab => ab.1 ≤ lap && lap ≤ ab.2

/-- The step dict built for one driver on one lap (the same expression is
written out twice in simulate, once for prediction input and once for the
history append; both use this shape on the respective state). -/
def buildStep (config : RaceConfig) (name : String) (s : DriverState)
    (lap : Nat) (sc : Bool) : Step :=
  { driver := name
    team := s.team
    circuit := config.circuit
    compound := s.compound
    lap_number := lap
    tyre_age := s.tyre_age
    is_sc := sc
    is_vsc := false
    rain := config.default_weather.rain
    air_temp := config.default_weather.air_temp
    track_temp := config.default_weather.track_temp
    humidity := config.default_weather.humidity
    wind_speed := config.default_weather.wind_speed }

/-- DNF application at the top of the lap loop: for name, lap_dnf in
config.dnfs: if lap_dnf == lap and state.get(name) and running, flip
running to False. -/
def applyDnfs (dnfs : List (String × Nat)) (lap : Nat) (st : StMap) : StMap :=
  dnfs.foldl
    (fun acc nd =>
      if nd.2 = lap ∧ (acc.lookup nd.1).isSome ∧ (getSt acc nd.1).running then
        updateKey acc nd.1 (fun s => { s with running := false })
      else acc)
    st

/-- One running driver's computed lap time: history + current step is sent
to the predictor, the entry at index len(hist)-1 is taken (none models the
IndexError when that index is out of the bounds of the returned array),
and the pit loss is added when the driver pits this lap. -/
def lapTimeFor (predict : List Step → List ℚ) (pit_loss : ℚ)
    (config : RaceConfig) (lap : Nat) (sc : Bool) (st : StMap) (hist : HMap)
    (name : String) : Option ℚ :=
  let s := getSt st name
  let step := buildStep config name s lap sc
  let h := getHist hist name ++ [step]
  match (predict h)[h.length - 1]? with
  | none => none
  | some yhat => some (if willPit config name lap then yhat + pit_loss else yhat)

/-- The lap_times dict: drivers are visited in the current running order,
non-running drivers are skipped, and a failure of the indexing aborts the
whole lap (the exception propagates). -/
def computeLapTimes (predict : List Step → List ℚ) (pit_loss : ℚ)
    (config : RaceConfig) (lap : Nat) (sc : Bool) (st : StMap) (hist : HMap)
    (order : List String) : Option (List (String × ℚ)) :=
  order.foldlM
    (fun acc name =>
      if (getSt st name).running then
        match lapTimeFor predict pit_loss config lap sc st hist name with
        | none => none
        | some t => some (dictInsert acc name t)
      else some acc)
    []

/-- Totals update: for name, t in lap_times.items(): total_time += t. -/
def applyTotals (lap_times : List (String × ℚ)) (st : StMap) : StMap :=
  lap_times.foldl
    (fun acc kv =>
      updateKey acc kv.1 (fun s => { s with total_time := s.total_time + kv.2 }))
    st

/-- Tyre/compound update after the time step: a pitting driver gets the
planned compound and tyre_age 0, a non-pitting running driver ages by 1. -/
def applyTyres (config : RaceConfig) (lap : Nat) (order : List String)
    (st : StMap) : StMap :=
  order.foldl
    (fun acc name =>
      if (getSt acc name).running then
        if willPit config name lap then
          updateKey acc name (fun s =>
            { s with compound := (pitTarget config name lap).getD s.compound,
                     tyre_age := 0 })
        else
          updateKey acc name (fun s => { s with tyre_age := s.tyre_age + 1 })
      else acc)
    st

/-- History push: append the post-update step and trim to the last max_len
entries (history[name] = (history[name] + [hist_step])[-max_len:]). -/
def applyHistory (maxLen : Nat) (config : RaceConfig) (lap : Nat) (sc : Bool)
    (order : List String) (st : StMap) (hist : HMap) : HMap :=
  order.foldl
    (fun h name =>
      if (getSt st name).running then
        updateKey h name (fun l =>
          pyTakeLast maxLen (l ++ [buildStep config name (getSt st name) lap sc]))
      else h)
    hist

/-- Ascending total_time order on driver names, the key of the per-lap
stable sort. -/
def timeLE (st : StMap) (a b : String) : Prop :=
  (getSt st a).total_time ≤ (getSt st b).total_time

instance (st : StMap) : DecidableRel (timeLE st) := fun a b =>
  inferInstanceAs (Decidable (_ ≤ _))

instance (st : StMap) : IsTotal String (timeLE st) :=
  ⟨fun a b => le_total _ _⟩

instance (st : StMap) : IsTrans String (timeLE st) :=
  ⟨fun _ _ _ h1 h2 => le_trans h1 h2⟩

/-- Field reorder at the end of the lap: stable sort of the running drivers
by total_time, retired drivers appended after in their current order.
Returns (running_sorted, dnfs). -/
def reorder (st : StMap) (order : List String) :
    List String × List String :=
  let running := order.filter fun n => (getSt st n).running
  let running_sorted := List.insertionSort (timeLE st) running
  let dnfs := order.filter fun n => !(getSt st n).running
  (running_sorted, dnfs)

structure TimelineEntry where
  lap : Nat
  order : List String
  lap_times : List (String × ℚ)
  is_sc : Bool
deriving DecidableEq

structure EngineState where
  state : StMap
  history : HMap
  order : List String
deriving DecidableEq

/-- Post-tyre-update state of the lap: DNFs applied, lap times accumulated,
tyres updated. -/
def lapState (config : RaceConfig) (lap : Nat) (es : EngineState)
    (lap_times : List (String × ℚ)) : StMap :=
  applyTyres config lap es.order
    (applyTotals lap_times (applyDnfs config.dnfs lap es.state))

/-- One iteration of the lap loop of LSTMSimulator.simulate. -/
def runLap (maxLen : Nat) (predict : List Step → List ℚ) (pit_loss : ℚ)
    (config : RaceConfig) (lap : Nat) (es : EngineState) :
    Option (EngineState × TimelineEntry) :=
  match computeLapTimes predict pit_loss config lap
      (isSc lap config.safety_cars) (applyDnfs config.dnfs lap es.state)
      es.history es.order with
  | none => none
  | some lap_times =>
    some ({ state := lapState config lap es lap_times,
            history := applyHistory maxLen config lap
              (isSc lap config.safety_cars) es.order
              (lapState config lap es lap_times) es.history,
            order := (reorder (lapState config lap es lap_times) es.order).1 ++
              (reorder (lapState config lap es lap_times) es.order).2 },
          { lap := lap,
            order := (reorder (lapState config lap es lap_times) es.order).1,
            lap_times := lap_times,
            is_sc := isSc lap config.safety_cars })

def initDriver (d : DriverSpec) : DriverState :=
  { team := d.team, compound := d.start_compound, tyre_age := 0,
    total_time := 0, grid := d.grid, running := true }

def initState (config : RaceConfig) : StMap :=
  config.drivers.foldl (fun acc d => dictInsert acc d.name (initDriver d)) []

def initHistory (config : RaceConfig) : HMap :=
  config.drivers.foldl (fun acc d => dictInsert acc d.name []) []

/-- Ascending grid order on driver names, the key of the start order sort. -/
def gridLE (st : StMap) (a b : String) : Prop :=
  (getSt st a).grid ≤ (getSt st b).grid

instance (st : StMap) : DecidableRel (gridLE st) := fun a b =>
  inferInstanceAs (Decidable (_ ≤ _))

def initOrder (config : RaceConfig) : List String :=
  List.insertionSort (gridLE (initState config))
    (config.drivers.map (·.name))

def initEngine (config : RaceConfig) : EngineState :=
  { state := initState config, history := initHistory config,
    order := initOrder config }

structure ClassRow where
  pos : Option Nat
  driver : String
  team : String
  total_time : ℚ
  status : String
deriving DecidableEq

/-- First classification pass: running drivers in order, with a position
counter that increments only on running drivers. -/
def finishRows (st : StMap) : List String → Nat → List ClassRow
  | [], _ => []
  | n :: rest, pos =>
    let s := getSt st n
    if s.running then
      { pos := some pos, driver := n, team := s.team,
        total_time := s.total_time, status := "Finished" } ::
        finishRows st rest (pos + 1)
    else finishRows st rest pos

/-- Second classification pass: non-running drivers in order, pos None. -/
def dnfRows (st : StMap) (order : List String) : List ClassRow :=
  (order.filter fun n => !(getSt st n).running).map fun n =>
    let s := getSt st n
    { pos := none, driver := n, team := s.team, total_time := s.total_time,
      status := "DNF" }

structure SimResult where
  classification : List ClassRow
  timeline : List TimelineEntry
  pit_loss_used : ℚ
deriving DecidableEq

/-- Pit loss actually used: circuit-specific estimate if present, else the
caller-supplied default. -/
def pitLossUsed (pit_loss_by_circuit : List (String × ℚ))
    (config : RaceConfig) : ℚ :=
  (pit_loss_by_circuit.lookup config.circuit).getD config.default_pit_loss

/-- One lap of the loop at the level of (engine state, timeline) pairs. -/
def simStep (maxLen : Nat) (predict : List Step → List ℚ) (pit_loss : ℚ)
    (config : RaceConfig) (acc : EngineState × List TimelineEntry)
    (lap : Nat) : Option (EngineState × List TimelineEntry) :=
  match runLap maxLen predict pit_loss config lap acc.1 with
  | none => none
  | some (es, e) => some (es, acc.2 ++ [e])

def simLoop (maxLen : Nat) (predict : List Step → List ℚ) (pit_loss : ℚ)
    (config : RaceConfig) (laps : List Nat)
    (acc : EngineState × List TimelineEntry) :
    Option (EngineState × List TimelineEntry) :=
  laps.foldlM (simStep maxLen predict pit_loss config) acc

/-- LSTMSimulator.simulate: run the lap loop over laps 1..total_laps and
produce the classification; none models an uncaught IndexError. -/
def simulate (maxLen : Nat) (predict : List Step → List ℚ)
    (pit_loss_by_circuit : List (String × ℚ)) (config : RaceConfig) :
    Option SimResult :=
  match
    simLoop maxLen predict (pitLossUsed pit_loss_by_circuit config) config
      (List.range' 1 config.total_laps) (initEngine config, []) with
  | none => none
  | some (es, timeline) =>
    some { classification :=
             finishRows es.state es.order 1 ++ dnfRows es.state es.order,
           timeline := timeline,
           pit_loss_used := pitLossUsed pit_loss_by_circuit config }

/-- Nodup keys: every simulation dict keeps this, since they are built by
dictInsert from the empty dict. -/
def keysNodup (l : List (String × α)) : Prop := (l.map (·.1)).Nodup

instance (l : List (String × α)) : Decidable (keysNodup l) := by
  unfold keysNodup
  infer_instance

/-- Common shape of the tyre and history update loops: visit the names in
order, each visit rewriting only that name's value. -/
def keyedFold (g : String → α → α) (order : List String)
    (m : List (String × α)) : List (String × α) :=
  order.foldl (fun acc n => updateKey acc n (g n)) m

/-- There is a DNF entry for this driver at this lap. -/
def fires (dnfs : List (String × Nat)) (lap : Nat) (name : String) : Bool :=
  dnfs.any fun nd => nd.1 == name && nd.2 == lap

/-- Per-driver effect of the tyre/compound update loop. -/
def tyreStep (config : RaceConfig) (lap : Nat) (n : String)
    (s : DriverState) : DriverState :=
  if s.running then
    if willPit config n lap then
      { s with compound := (pitTarget config n lap).getD s.compound,
               tyre_age := 0 }
    else { s with tyre_age := s.tyre_age + 1 }
  else s

/-- Per-driver effect of the history push loop (the post-update state st is
fixed throughout the loop). -/
def histStep (maxLen : Nat) (config : RaceConfig) (lap : Nat) (sc : Bool)
    (st : StMap) (n : String) (l : List Step) : List Step :=
  if (getSt st n).running then
    pyTakeLast maxLen (l ++ [buildStep config n (getSt st n) lap sc])
  else l

/-- Generalized accumulator version of the lap-time loop. -/
def lapTimesAux (predict : List Step → List ℚ) (pit_loss : ℚ)
    (config : RaceConfig) (lap : Nat) (sc : Bool) (st : StMap) (hist : HMap)
    (order : List String) (acc : List (String × ℚ)) :
    Option (List (String × ℚ)) :=
  order.foldlM
    (fun acc name =>
      if (getSt st name).running then
        match lapTimeFor predict pit_loss config lap sc st hist name with
        | none => none
        | some t => some (dictInsert acc name t)
      else some acc)
    acc

def rosterNames (config : RaceConfig) : List String :=
  config.drivers.map (·.name)

/-- State after the DNF application of the lap, before lap times. -/
def preState (config : RaceConfig) (lap : Nat) (es : EngineState) : StMap :=
  applyDnfs config.dnfs lap es.state

/-- Snapshot the predictor sees for a driver on this lap: built from the
state before the pit/tyre-age update. -/
def preSnapshot (config : RaceConfig) (lap : Nat) (es : EngineState)
    (name : String) : Step :=
  buildStep config name (getSt (preState config lap es) name) lap
    (isSc lap config.safety_cars)

/-- Sequence handed to the predictor for a driver on this lap: rolling
history plus the current snapshot. -/
def predInput (config : RaceConfig) (lap : Nat) (es : EngineState)
    (name : String) : List Step :=
  getHist es.history name ++ [preSnapshot config lap es name]

/-- Sum of a driver's recorded lap times over a timeline. -/
def timelineSum (tl : List TimelineEntry) (name : String) : ℚ :=
  (tl.map fun e => (e.lap_times.lookup name).getD 0).sum

/-- The driver has a retirement entry that fired by lap n (entries with
lap 0 or negative never fire, since the loop starts at lap 1). -/
def retiredBy (config : RaceConfig) (n : Nat) (name : String) : Prop :=
  ∃ p ∈ config.dnfs, p.1 = name ∧ 1 ≤ p.2 ∧ p.2 ≤ n

instance (config : RaceConfig) (n : Nat) (name : String) :
    Decidable (retiredBy config n name) := by
  unfold retiredBy
  infer_instance

/-- The lap on which this driver actually retires: the smallest positive
lap among the driver's retirement entries. -/
def retirementLap (config : RaceConfig) (name : String) : Option Nat :=
  ((config.dnfs.filter fun p => p.1 == name && !(p.2 == 0)).map (·.2)).min?

/-- A predictor returning a constant array of a fixed length, standing for
the Keras model output whose length always equals max_len. -/
def constPred (v : ℚ) (n : Nat) : List Step → List ℚ :=
  fun _ => List.replicate n v

/-! ### Pit-loss estimator (LSTMLapTimeModel._estimate_pit_loss) -/

/-- Historical per-lap record as consumed by the estimator. -/
structure LapRecord where
  circuit : String
  lap_time_s : ℚ
  pit_this_lap : Bool
deriving DecidableEq

/-- pandas Series.median on a nonempty list: middle element after sorting,
or the mean of the two middle elements for an even count. -/
def median (l : List ℚ) : Option ℚ :=
  if l.length = 0 then none
  else
    if l.length % 2 = 1 then (List.insertionSort (· ≤ ·) l)[l.length / 2]?
    else do
      let a ← (List.insertionSort (· ≤ ·) l)[l.length / 2 - 1]?
      let b ← (List.insertionSort (· ≤ ·) l)[l.length / 2]?
      pure ((a + b) / 2)

/-- Per-circuit estimate: median over the circuit's pit laps of
(pit lap time - median non-pit lap time), kept only strictly inside the
(5, 60) band; none when the circuit lacks pit rows or non-pit rows or the
estimate falls outside the band. -/
def estimatePitLossFor (df : List LapRecord) (c : String) : Option ℚ :=
  let g := df.filter fun r => r.circuit == c
  let base := g.filter fun r => r.pit_this_lap == false
  let pits := g.filter fun r => r.pit_this_lap == true
  match median (base.map (·.lap_time_s)) with
  | none => none
  | some med_base =>
    match median (pits.map fun r => r.lap_time_s - med_base) with
    | none => none
    | some loss => if 5 < loss ∧ loss < 60 then some loss else none

/-- The pit_loss_by_circuit dict: one entry per circuit of the data that
has a kept estimate. -/
def estimatePitLoss (df : List LapRecord) : List (String × ℚ) :=
  (df.map (·.circuit)).dedup.filterMap fun c =>
    (estimatePitLossFor df c).map fun v => (c, v)

/-- The unbanded per-circuit estimate: median over the circuit's pit laps
of (pit lap time - median non-pit lap time). -/
def pitLossRaw (df : List LapRecord) (c : String) : Option ℚ :=
  let g := df.filter fun r => r.circuit == c
  let base := g.filter fun r => r.pit_this_lap == false
  let pits := g.filter fun r => r.pit_this_lap == true
  match median (base.map (·.lap_time_s)) with
  | none => none
  | some med_base => median (pits.map fun r => r.lap_time_s - med_base)

/-! ### Concrete inputs used by claim witnesses and counterexamples -/

def cfgC1 : RaceConfig :=
  { circuit := "C", total_laps := 2, drivers := [⟨"A", "T", 1, "Soft"⟩] }

def cfgC2 : RaceConfig :=
  { circuit := "C", total_laps := 3, drivers := [⟨"A", "T", 1, "X"⟩],
    strategy := [("A", [⟨2, "Y"⟩])] }

def cfgC5 : RaceConfig :=
  { circuit := "C", total_laps := 2, drivers := [⟨"A", "T", 1, "X"⟩],
    strategy := [("A", [⟨2, "Y"⟩])], default_pit_loss := -200 }

/-- A config exhibiting all three supposed configuration errors at once:
duplicate grid positions (both drivers on grid 1) and a pit event at lap 5
outside [1, total_laps] = [1, 1]. -/
def cfgC3 : RaceConfig :=
  { circuit := "C", total_laps := 1,
    drivers := [⟨"A", "T", 1, "X"⟩, ⟨"B", "T", 1, "X"⟩],
    strategy := [("A", [⟨5, "Y"⟩])] }

/-- Two drivers over three laps with driver B retiring on lap 2. -/
def cfgC4 : RaceConfig :=
  { circuit := "C", total_laps := 3,
    drivers := [⟨"A", "T", 1, "X"⟩, ⟨"B", "T", 2, "X"⟩],
    dnfs := [("B", 2)] }

/-- The loop invariant of the simulation after n processed laps: the state
dict keys are exactly the roster, the order is a permutation of the
roster, the running flag encodes exactly the fired retirements, total_time
is the sum of recorded lap times, timeline entries carry in-range laps and
name only running drivers, and the order is a running block sorted by
total_time followed by a retired block ordered by descending retirement
lap. -/
structure SimInv (config : RaceConfig) (n : Nat) (es : EngineState)
    (tl : List TimelineEntry) : Prop where
  keys_state : es.state.map (·.1) = rosterNames config
  order_perm : es.order.Perm (rosterNames config)
  running_iff : ∀ name ∈ rosterNames config,
    ((getSt es.state name).running = false ↔ retiredBy config n name)
  total_eq : ∀ name, (getSt es.state name).total_time = timelineSum tl name
  entries_lap : ∀ e ∈ tl, 1 ≤ e.lap ∧ e.lap ≤ n
  entries_run : ∀ e ∈ tl, ∀ name v, e.lap_times.lookup name = some v →
    ¬retiredBy config e.lap name
  order_split : es.order =
    (es.order.filter fun m => (getSt es.state m).running) ++
      (es.order.filter fun m => !(getSt es.state m).running)
  run_sorted : (es.order.filter fun m =>
    (getSt es.state m).running).Pairwise (timeLE es.state)
  ret_laps : ∀ name ∈ es.order.filter
      (fun m => !(getSt es.state m).running),
    ∃ l, retirementLap config name = some l ∧ l ≤ n
  ret_sorted : ((es.order.filter fun m =>
    !(getSt es.state m).running).map fun m =>
      (retirementLap config m).getD 0).Pairwise (fun a b => b ≤ a)

/-! ### Association-list (Python dict) lemmas -/

theorem lookup_cons_eq (a : String) (b : α) (t : List (String × α)) :
    ((a, b) :: t).lookup a = some b := by
  simp [List.lookup_cons]

theorem lookup_cons_ne (a k : String) (b : α) (t : List (String × α))
    (h : k ≠ a) : ((a, b) :: t).lookup k = t.lookup k := by
  have hb : (k == a) = false := beq_eq_false_iff_ne.mpr h
  simp [List.lookup_cons, hb]

theorem updateKey_cons (a : String) (b : α) (t : List (String × α))
    (k : String) (f : α → α) :
    updateKey ((a, b) :: t) k f =
      (if a = k then (a, f b) else (a, b)) :: updateKey t k f := rfl

theorem lookup_updateKey (l : List (String × α)) (k : String) (f : α → α)
    (k' : String) :
    (updateKey l k f).lookup k' =
      if k' = k then (l.lookup k').map f else l.lookup k' := by
  induction l with
  | nil => simp [updateKey]
  | cons p t ih =>
    obtain ⟨a, b⟩ := p
    rw [updateKey_cons]
    by_cases hak : a = k
    · rw [if_pos hak]
      by_cases hk' : k' = a
      · subst hk'
        rw [lookup_cons_eq, lookup_cons_eq, if_pos hak]
        rfl
      · rw [lookup_cons_ne _ _ _ _ hk', lookup_cons_ne _ _ _ _ hk', ih]
    · rw [if_neg hak]
      by_cases hk' : k' = a
      · subst hk'
        have hkk : k' ≠ k := fun hh => hak (hh ▸ rfl)
        rw [lookup_cons_eq, if_neg hkk, lookup_cons_eq]
      · rw [lookup_cons_ne _ _ _ _ hk', lookup_cons_ne _ _ _ _ hk', ih]

theorem keys_updateKey (l : List (String × α)) (k : String) (f : α → α) :
    (updateKey l k f).map (·.1) = l.map (·.1) := by
  induction l with
  | nil => rfl
  | cons p t ih =>
    obtain ⟨a, b⟩ := p
    rw [updateKey_cons]
    by_cases hak : a = k
    · rw [if_pos hak]
      simpa using ih
    · rw [if_neg hak]
      simpa using ih

theorem lookup_eq_none_iff (l : List (String × α)) (k : String) :
    l.lookup k = none ↔ k ∉ l.map (·.1) := by
  induction l with
  | nil => simp
  | cons p t ih =>
    obtain ⟨a, b⟩ := p
    by_cases hk : k = a
    · subst hk
      rw [lookup_cons_eq]
      simp
    · rw [lookup_cons_ne _ _ _ _ hk]
      simp [hk, ih]

theorem lookup_isSome_iff (l : List (String × α)) (k : String) :
    (l.lookup k).isSome = true ↔ k ∈ l.map (·.1) := by
  cases h : l.lookup k with
  | none =>
    simp only [Option.isSome_none, Bool.false_eq_true, false_iff]
    exact (lookup_eq_none_iff l k).mp h
  | some v =>
    simp only [Option.isSome_some, true_iff]
    by_contra hmem
    have h2 := (lookup_eq_none_iff l k).mpr hmem
    rw [h] at h2
    exact Option.noConfusion h2

theorem lookup_append_single (l : List (String × α)) (k : String) (v : α)
    (k' : String) (h : l.lookup k = none) :
    (l ++ [(k, v)]).lookup k' = if k' = k then some v else l.lookup k' := by
  induction l with
  | nil =>
    by_cases hk : k' = k
    · subst hk
      simp [lookup_cons_eq]
    · rw [List.nil_append, lookup_cons_ne _ _ _ _ hk, if_neg hk]
  | cons p t ih =>
    obtain ⟨a, b⟩ := p
    have hka : k ≠ a := by
      intro hk
      subst hk
      rw [lookup_cons_eq] at h
      exact Option.noConfusion h
    rw [lookup_cons_ne _ _ _ _ hka] at h
    by_cases hk' : k' = a
    · subst hk'
      rw [List.cons_append, lookup_cons_eq, lookup_cons_eq,
        if_neg (fun hh => hka hh.symm)]
    · rw [List.cons_append, lookup_cons_ne _ _ _ _ hk',
        lookup_cons_ne _ _ _ _ hk']
      exact ih h

theorem lookup_dictInsert (l : List (String × α)) (k : String) (v : α)
    (k' : String) :
    (dictInsert l k v).lookup k' = if k' = k then some v else l.lookup k' := by
  unfold dictInsert
  by_cases hs : (l.lookup k).isSome = true
  · rw [if_pos hs, lookup_updateKey]
    by_cases hk : k' = k
    · subst hk
      obtain ⟨w, hw⟩ := Option.isSome_iff_exists.mp hs
      simp [hw]
    · simp [hk]
  · rw [if_neg hs]
    exact lookup_append_single l k v k' (Option.not_isSome_iff_eq_none.mp hs)

theorem keys_dictInsert_of_mem (l : List (String × α)) (k : String) (v : α)
    (h : k ∈ l.map (·.1)) : (dictInsert l k v).map (·.1) = l.map (·.1) := by
  unfold dictInsert
  rw [if_pos ((lookup_isSome_iff l k).mpr h)]
  exact keys_updateKey l k _

theorem keys_dictInsert_of_not_mem (l : List (String × α)) (k : String)
    (v : α) (h : k ∉ l.map (·.1)) :
    (dictInsert l k v).map (·.1) = l.map (·.1) ++ [k] := by
  unfold dictInsert
  have hs : ¬(l.lookup k).isSome = true := fun hs =>
    h ((lookup_isSome_iff l k).mp hs)
  rw [if_neg hs]
  simp

theorem updateKey_congr (l : List (String × α)) (k : String) (f g : α → α)
    (h : ∀ p ∈ l, p.1 = k → f p.2 = g p.2) :
    updateKey l k f = updateKey l k g := by
  induction l with
  | nil => rfl
  | cons p t ih =>
    obtain ⟨a, b⟩ := p
    rw [updateKey_cons, updateKey_cons,
      ih (fun q hq hqk => h q (List.mem_cons_of_mem _ hq) hqk)]
    by_cases hak : a = k
    · rw [if_pos hak, if_pos hak, h (a, b) (List.mem_cons_self _ _) hak]
    · rw [if_neg hak, if_neg hak]

theorem updateKey_id (l : List (String × α)) (k : String) :
    updateKey l k (fun v => v) = l := by
  induction l with
  | nil => rfl
  | cons p t ih =>
    obtain ⟨a, b⟩ := p
    rw [updateKey_cons, ih]
    by_cases hak : a = k
    · rw [if_pos hak]
    · rw [if_neg hak]

theorem updateKey_of_not_mem (l : List (String × α)) (k : String) (f : α → α)
    (h : k ∉ l.map (·.1)) : updateKey l k f = l := by
  induction l with
  | nil => rfl
  | cons p t ih =>
    obtain ⟨a, b⟩ := p
    simp only [List.map_cons, List.mem_cons] at h
    push_neg at h
    rw [updateKey_cons, ih h.2, if_neg (fun hh => h.1 hh.symm)]

theorem keysNodup_nil : keysNodup ([] : List (String × α)) := List.nodup_nil

theorem keysNodup_updateKey (l : List (String × α)) (k : String) (f : α → α)
    (h : keysNodup l) : keysNodup (updateKey l k f) := by
  unfold keysNodup
  rw [keys_updateKey]
  exact h

theorem keysNodup_dictInsert (l : List (String × α)) (k : String) (v : α)
    (h : keysNodup l) : keysNodup (dictInsert l k v) := by
  by_cases hm : k ∈ l.map (·.1)
  · unfold keysNodup
    rw [keys_dictInsert_of_mem l k v hm]
    exact h
  · unfold keysNodup
    rw [keys_dictInsert_of_not_mem l k v hm, List.nodup_append]
    refine ⟨h, List.nodup_singleton k, ?_⟩
    intro a ha hak
    rw [List.mem_singleton] at hak
    subst hak
    exact hm ha

theorem lookup_eq_of_mem_of_keysNodup (l : List (String × α)) (p : String × α)
    (hnd : keysNodup l) (hp : p ∈ l) : l.lookup p.1 = some p.2 := by
  induction l with
  | nil => exact absurd hp (List.not_mem_nil p)
  | cons q t ih =>
    obtain ⟨a, b⟩ := q
    unfold keysNodup at hnd
    simp only [List.map_cons, List.nodup_cons] at hnd
    rcases List.mem_cons.mp hp with h | h
    · subst h
      exact lookup_cons_eq _ _ _
    · have hpa : p.1 ≠ a := by
        intro hh
        exact hnd.1 (hh ▸ List.mem_map_of_mem (·.1) h)
      rw [lookup_cons_ne _ _ _ _ hpa]
      exact ih hnd.2 h

theorem value_eq_of_mem_of_keysNodup (l : List (String × α)) (p : String × α)
    (v : α) (hnd : keysNodup l) (hp : p ∈ l) (hl : l.lookup p.1 = some v) :
    p.2 = v := by
  have := lookup_eq_of_mem_of_keysNodup l p hnd hp
  rw [hl] at this
  exact (Option.some.injEq _ _ ▸ this).symm

/-! ### Generic keyed fold over an order list -/

theorem keyedFold_nil (g : String → α → α) (m : List (String × α)) :
    keyedFold g [] m = m := rfl

theorem keyedFold_cons (g : String → α → α) (n : String) (t : List String)
    (m : List (String × α)) :
    keyedFold g (n :: t) m = keyedFold g t (updateKey m n (g n)) := rfl

theorem keys_keyedFold (g : String → α → α) (order : List String)
    (m : List (String × α)) :
    (keyedFold g order m).map (·.1) = m.map (·.1) := by
  induction order generalizing m with
  | nil => rfl
  | cons n t ih =>
    rw [keyedFold_cons, ih, keys_updateKey]

theorem lookup_keyedFold_of_not_mem (g : String → α → α)
    (order : List String) (m : List (String × α)) (name : String)
    (h : name ∉ order) :
    (keyedFold g order m).lookup name = m.lookup name := by
  induction order generalizing m with
  | nil => rfl
  | cons n t ih =>
    simp only [List.mem_cons] at h
    push_neg at h
    rw [keyedFold_cons, ih _ h.2, lookup_updateKey, if_neg h.1]

theorem lookup_keyedFold_of_count_one (g : String → α → α)
    (order : List String) (m : List (String × α)) (name : String)
    (h : order.count name = 1) :
    (keyedFold g order m).lookup name = (m.lookup name).map (g name) := by
  induction order generalizing m with
  | nil => simp at h
  | cons n t ih =>
    rw [keyedFold_cons]
    by_cases hn : n = name
    · subst hn
      rw [List.count_cons_self] at h
      have hnt : n ∉ t := by
        intro hmem
        have := List.count_pos_iff.mpr hmem
        omega
      rw [lookup_keyedFold_of_not_mem g t _ n hnt, lookup_updateKey,
        if_pos rfl]
    · rw [List.count_cons_of_ne (fun hh => hn hh.symm) t] at h
      rw [ih _ h, lookup_updateKey, if_neg (fun hh => hn hh.symm)]

theorem lookup_keyedFold_proj {γ : Type} (proj : α → γ) (g : String → α → α)
    (hg : ∀ n v, proj (g n v) = proj v) (order : List String)
    (m : List (String × α)) (name : String) :
    ((keyedFold g order m).lookup name).map proj =
      (m.lookup name).map proj := by
  induction order generalizing m with
  | nil => rfl
  | cons n t ih =>
    rw [keyedFold_cons, ih, lookup_updateKey]
    by_cases hn : name = n
    · rw [if_pos hn]
      cases m.lookup name with
      | none => rfl
      | some v => simp [hg]
    · rw [if_neg hn]

/-! ### DriverState record helpers -/

theorem set_running_false_of_not_running (s : DriverState)
    (h : s.running = false) : { s with running := false } = s := by
  cases s
  simp_all

theorem getSt_eq_of_lookup (st : StMap) (name : String) (s : DriverState)
    (h : st.lookup name = some s) : getSt st name = s := by
  unfold getSt
  rw [h]
  rfl

theorem getSt_of_lookup_none (st : StMap) (name : String)
    (h : st.lookup name = none) : getSt st name = default := by
  unfold getSt
  rw [h]
  rfl

theorem proj_getSt_eq {γ : Type} (proj : DriverState → γ) (st st' : StMap)
    (name : String)
    (h : (st'.lookup name).map proj = (st.lookup name).map proj) :
    proj (getSt st' name) = proj (getSt st name) := by
  unfold getSt
  cases h1 : st'.lookup name with
  | none =>
    cases h2 : st.lookup name with
    | none => rfl
    | some v => rw [h1, h2] at h; exact Option.noConfusion h
  | some v =>
    cases h2 : st.lookup name with
    | none => rw [h1, h2] at h; exact Option.noConfusion h
    | some w =>
      rw [h1, h2] at h
      simpa using h

/-! ### applyDnfs characterization -/

theorem applyDnfs_nil (lap : Nat) (st : StMap) :
    applyDnfs [] lap st = st := rfl

theorem applyDnfs_cons (nd : String × Nat) (t : List (String × Nat))
    (lap : Nat) (st : StMap) :
    applyDnfs (nd :: t) lap st =
      applyDnfs t lap
        (if nd.2 = lap ∧ (st.lookup nd.1).isSome ∧ (getSt st nd.1).running then
          updateKey st nd.1 (fun s => { s with running := false })
        else st) := rfl

theorem lookup_applyDnfs (dnfs : List (String × Nat)) (lap : Nat) (st : StMap)
    (name : String) :
    (applyDnfs dnfs lap st).lookup name =
      (st.lookup name).map fun s =>
        if fires dnfs lap name then { s with running := false } else s := by
  induction dnfs generalizing st with
  | nil =>
    rw [applyDnfs_nil]
    cases st.lookup name with
    | none => rfl
    | some s => simp [fires]
  | cons nd t ih =>
    obtain ⟨dn, dl⟩ := nd
    rw [applyDnfs_cons]
    split
    · rename_i hcond
      rw [ih]
      have hdl : dl = lap := hcond.1
      have hsome : (st.lookup dn).isSome = true := hcond.2.1
      have hrun : (getSt st dn).running = true := hcond.2.2
      obtain ⟨s, hs⟩ := Option.isSome_iff_exists.mp hsome
      by_cases hdn : name = dn
      · subst hdn
        subst hdl
        rw [lookup_updateKey, if_pos rfl, hs]
        have hfc : fires ((name, dl) :: t) dl name = true := by
          simp [fires]
        rw [hfc]
        cases hfi : fires t dl name
        · simp [hfi]
        · simp [hfi]
      · rw [lookup_updateKey, if_neg hdn]
        have hb : (dn == name) = false :=
          beq_eq_false_iff_ne.mpr (fun hh => hdn hh.symm)
        have hfc : fires ((dn, dl) :: t) lap name = fires t lap name := by
          simp [fires, hb]
        rw [hfc]
    · rename_i hcond
      rw [ih]
      by_cases hdn : name = dn
      · subst hdn
        by_cases hdl : dl = lap
        · subst hdl
          cases hl : st.lookup name with
          | none => rfl
          | some s =>
            have hrun : s.running = false := by
              cases hb : s.running
              · rfl
              · exact absurd
                  ⟨rfl, by rw [hl]; rfl,
                    by rw [getSt_eq_of_lookup st name s hl]; exact hb⟩
                  hcond
            have hset : { s with running := false } = s :=
              set_running_false_of_not_running s hrun
            have hfc : fires ((name, dl) :: t) dl name = true := by
              simp [fires]
            rw [hfc]
            cases hfi : fires t dl name
            · simp [hfi, hset]
            · simp [hfi, hset]
        · have hb : (dl == lap) = false := by
            simpa using hdl
          have hfc : fires ((name, dl) :: t) lap name =
              fires t lap name := by
            simp [fires, hb]
          rw [hfc]
      · have hb : (dn == name) = false :=
          beq_eq_false_iff_ne.mpr (fun hh => hdn hh.symm)
        have hfc : fires ((dn, dl) :: t) lap name = fires t lap name := by
          simp [fires, hb]
        rw [hfc]

theorem keys_applyDnfs (dnfs : List (String × Nat)) (lap : Nat) (st : StMap) :
    (applyDnfs dnfs lap st).map (·.1) = st.map (·.1) := by
  induction dnfs generalizing st with
  | nil => rfl
  | cons nd t ih =>
    rw [applyDnfs_cons, ih]
    by_cases hc : nd.2 = lap ∧ (st.lookup nd.1).isSome = true ∧
        (getSt st nd.1).running = true
    · rw [if_pos hc, keys_updateKey]
    · rw [if_neg hc]

/-! ### applyTotals characterization -/

theorem applyTotals_nil (st : StMap) : applyTotals [] st = st := rfl

theorem applyTotals_cons (kv : String × ℚ) (t : List (String × ℚ))
    (st : StMap) :
    applyTotals (kv :: t) st =
      applyTotals t
        (updateKey st kv.1 (fun s =>
          { s with total_time := s.total_time + kv.2 })) := rfl

theorem lookup_applyTotals (lt : List (String × ℚ)) (st : StMap)
    (name : String) (hnd : keysNodup lt) :
    (applyTotals lt st).lookup name =
      (st.lookup name).map fun s =>
        { s with total_time := s.total_time + ((lt.lookup name).getD 0) } := by
  induction lt generalizing st with
  | nil =>
    rw [applyTotals_nil]
    cases st.lookup name with
    | none => rfl
    | some s => simp
  | cons kv t ih =>
    obtain ⟨k, v⟩ := kv
    unfold keysNodup at hnd
    simp only [List.map_cons, List.nodup_cons] at hnd
    rw [applyTotals_cons, ih _ hnd.2]
    by_cases hk : name = k
    · subst hk
      have hnt : t.lookup name = none :=
        (lookup_eq_none_iff t name).mpr hnd.1
      rw [lookup_updateKey, if_pos rfl, hnt, lookup_cons_eq]
      cases st.lookup name with
      | none => rfl
      | some s => simp [add_assoc]
    · rw [lookup_updateKey, if_neg hk, lookup_cons_ne _ _ _ _ hk]

theorem keys_applyTotals (lt : List (String × ℚ)) (st : StMap) :
    (applyTotals lt st).map (·.1) = st.map (·.1) := by
  induction lt generalizing st with
  | nil => rfl
  | cons kv t ih =>
    rw [applyTotals_cons, ih, keys_updateKey]

theorem getSt_applyDnfs (dnfs : List (String × Nat)) (lap : Nat) (st : StMap)
    (name : String) :
    getSt (applyDnfs dnfs lap st) name =
      if fires dnfs lap name then { getSt st name with running := false }
      else getSt st name := by
  unfold getSt
  rw [lookup_applyDnfs]
  cases st.lookup name with
  | none =>
    cases hf : fires dnfs lap name
    · simp [hf]
    · simp only [Option.map_none, Option.getD_none, hf, if_pos]
      exact (set_running_false_of_not_running default rfl).symm
  | some s =>
    cases hf : fires dnfs lap name
    · simp [hf]
    · simp [hf]

/-! ### applyTyres as a keyed fold -/

theorem applyTyres_cons (config : RaceConfig) (lap : Nat) (n : String)
    (t : List String) (st : StMap) :
    applyTyres config lap (n :: t) st =
      applyTyres config lap t
        (if (getSt st n).running then
          if willPit config n lap then
            updateKey st n (fun s =>
              { s with compound := (pitTarget config n lap).getD s.compound,
                       tyre_age := 0 })
          else updateKey st n (fun s => { s with tyre_age := s.tyre_age + 1 })
        else st) := rfl

theorem applyTyres_eq_keyedFold (config : RaceConfig) (lap : Nat)
    (order : List String) (st : StMap) (hnd : keysNodup st) :
    applyTyres config lap order st =
      keyedFold (tyreStep config lap) order st := by
  induction order generalizing st with
  | nil => rfl
  | cons n t ih =>
    rw [applyTyres_cons, keyedFold_cons]
    have hstep :
        (if (getSt st n).running then
          if willPit config n lap then
            updateKey st n (fun s =>
              { s with compound := (pitTarget config n lap).getD s.compound,
                       tyre_age := 0 })
          else updateKey st n (fun s => { s with tyre_age := s.tyre_age + 1 })
        else st) = updateKey st n (tyreStep config lap n) := by
      cases hl : st.lookup n with
      | none =>
        rw [getSt_of_lookup_none st n hl]
        rw [if_neg (by simp)]
        rw [updateKey_of_not_mem st n _ ((lookup_eq_none_iff st n).mp hl)]
      | some s =>
        rw [getSt_eq_of_lookup st n s hl]
        by_cases hr : s.running = true
        · rw [if_pos hr]
          by_cases hw : willPit config n lap = true
          · rw [if_pos hw]
            apply updateKey_congr
            intro p hp hpk
            have hv : p.2 = s :=
              value_eq_of_mem_of_keysNodup st p s hnd hp (hpk ▸ hl)
            rw [hv]
            unfold tyreStep
            rw [if_pos hr, if_pos hw]
          · rw [if_neg hw]
            apply updateKey_congr
            intro p hp hpk
            have hv : p.2 = s :=
              value_eq_of_mem_of_keysNodup st p s hnd hp (hpk ▸ hl)
            rw [hv]
            unfold tyreStep
            rw [if_pos hr, if_neg hw]
        · rw [if_neg hr]
          have : updateKey st n (tyreStep config lap n) =
              updateKey st n (fun v => v) := by
            apply updateKey_congr
            intro p hp hpk
            have hv : p.2 = s :=
              value_eq_of_mem_of_keysNodup st p s hnd hp (hpk ▸ hl)
            rw [hv]
            unfold tyreStep
            rw [if_neg hr]
          rw [this, updateKey_id]
    rw [hstep]
    exact ih _ (keysNodup_updateKey st n _ hnd)

/-! ### applyHistory as a keyed fold -/

theorem applyHistory_cons (maxLen : Nat) (config : RaceConfig) (lap : Nat)
    (sc : Bool) (n : String) (t : List String) (st : StMap) (hist : HMap) :
    applyHistory maxLen config lap sc (n :: t) st hist =
      applyHistory maxLen config lap sc t st
        (if (getSt st n).running then
          updateKey hist n (fun l =>
            pyTakeLast maxLen (l ++ [buildStep config n (getSt st n) lap sc]))
        else hist) := rfl

theorem applyHistory_eq_keyedFold (maxLen : Nat) (config : RaceConfig)
    (lap : Nat) (sc : Bool) (order : List String) (st : StMap) (hist : HMap) :
    applyHistory maxLen config lap sc order st hist =
      keyedFold (histStep maxLen config lap sc st) order hist := by
  induction order generalizing hist with
  | nil => rfl
  | cons n t ih =>
    rw [applyHistory_cons, keyedFold_cons]
    have hstep :
        (if (getSt st n).running then
          updateKey hist n (fun l =>
            pyTakeLast maxLen (l ++ [buildStep config n (getSt st n) lap sc]))
        else hist) = updateKey hist n (histStep maxLen config lap sc st n) := by
      by_cases hr : (getSt st n).running = true
      · rw [if_pos hr]
        apply updateKey_congr
        intro p hp hpk
        unfold histStep
        rw [if_pos hr]
      · rw [if_neg hr]
        have : updateKey hist n (histStep maxLen config lap sc st n) =
            updateKey hist n (fun v => v) := by
          apply updateKey_congr
          intro p hp hpk
          unfold histStep
          rw [if_neg hr]
        rw [this, updateKey_id]
    rw [hstep]
    exact ih _

/-! ### computeLapTimes characterization -/

theorem mem_dictInsert (l : List (String × α)) (k : String) (v : α)
    (p : String × α) (hp : p ∈ dictInsert l k v) :
    p = (k, v) ∨ p ∈ l := by
  unfold dictInsert at hp
  split at hp
  · unfold updateKey at hp
    obtain ⟨q, hq, hfq⟩ := List.mem_map.mp hp
    by_cases hqk : q.1 = k
    · rw [if_pos hqk] at hfq
      left
      rw [← hfq, hqk]
    · rw [if_neg hqk] at hfq
      right
      rw [← hfq]
      exact hq
  · rcases List.mem_append.mp hp with h | h
    · right; exact h
    · left; simpa using h

theorem computeLapTimes_eq_aux (predict : List Step → List ℚ) (pit_loss : ℚ)
    (config : RaceConfig) (lap : Nat) (sc : Bool) (st : StMap) (hist : HMap)
    (order : List String) :
    computeLapTimes predict pit_loss config lap sc st hist order =
      lapTimesAux predict pit_loss config lap sc st hist order [] := rfl

theorem lapTimesAux_nil (predict : List Step → List ℚ) (pit_loss : ℚ)
    (config : RaceConfig) (lap : Nat) (sc : Bool) (st : StMap) (hist : HMap)
    (acc : List (String × ℚ)) :
    lapTimesAux predict pit_loss config lap sc st hist [] acc = some acc := rfl

theorem lapTimesAux_cons (predict : List Step → List ℚ) (pit_loss : ℚ)
    (config : RaceConfig) (lap : Nat) (sc : Bool) (st : StMap) (hist : HMap)
    (n : String) (t : List String) (acc : List (String × ℚ)) :
    lapTimesAux predict pit_loss config lap sc st hist (n :: t) acc =
      (if (getSt st n).running then
        match lapTimeFor predict pit_loss config lap sc st hist n with
        | none => none
        | some tv => some (dictInsert acc n tv)
      else some acc).bind
        (fun a => lapTimesAux predict pit_loss config lap sc st hist t a) := by
  unfold lapTimesAux
  rw [List.foldlM_cons]
  rfl

theorem lookup_lapTimesAux (predict : List Step → List ℚ) (pit_loss : ℚ)
    (config : RaceConfig) (lap : Nat) (sc : Bool) (st : StMap) (hist : HMap)
    (order : List String) (acc lt : List (String × ℚ)) (name : String)
    (h : lapTimesAux predict pit_loss config lap sc st hist order acc =
      some lt) :
    lt.lookup name =
      if name ∈ order ∧ (getSt st name).running = true then
        lapTimeFor predict pit_loss config lap sc st hist name
      else acc.lookup name := by
  induction order generalizing acc with
  | nil =>
    rw [lapTimesAux_nil] at h
    obtain rfl : acc = lt := Option.some.inj h
    rw [if_neg (by simp)]
  | cons n t ih =>
    rw [lapTimesAux_cons] at h
    by_cases hr : (getSt st n).running = true
    · rw [if_pos hr] at h
      cases hltf : lapTimeFor predict pit_loss config lap sc st hist n with
      | none =>
        rw [hltf] at h
        exact Option.noConfusion h
      | some tv =>
        rw [hltf] at h
        rw [Option.some_bind] at h
        rw [ih _ h]
        by_cases hc1 : name ∈ t ∧ (getSt st name).running = true
        · rw [if_pos hc1, if_pos ⟨List.mem_cons_of_mem n hc1.1, hc1.2⟩]
        · rw [if_neg hc1, lookup_dictInsert]
          by_cases hn : name = n
          · subst hn
            rw [if_pos rfl, if_pos ⟨List.mem_cons_self name t, hr⟩, hltf]
          · rw [if_neg hn]
            have : ¬(name ∈ n :: t ∧ (getSt st name).running = true) := by
              intro hh
              rcases List.mem_cons.mp hh.1 with h1 | h1
              · exact hn h1
              · exact hc1 ⟨h1, hh.2⟩
            rw [if_neg this]
    · rw [if_neg hr] at h
      rw [Option.some_bind] at h
      rw [ih _ h]
      by_cases hc1 : name ∈ t ∧ (getSt st name).running = true
      · rw [if_pos hc1, if_pos ⟨List.mem_cons_of_mem n hc1.1, hc1.2⟩]
      · rw [if_neg hc1]
        have : ¬(name ∈ n :: t ∧ (getSt st name).running = true) := by
          intro hh
          rcases List.mem_cons.mp hh.1 with h1 | h1
          · exact hr (h1 ▸ hh.2)
          · exact hc1 ⟨h1, hh.2⟩
        rw [if_neg this]

theorem keysNodup_lapTimesAux (predict : List Step → List ℚ) (pit_loss : ℚ)
    (config : RaceConfig) (lap : Nat) (sc : Bool) (st : StMap) (hist : HMap)
    (order : List String) (acc lt : List (String × ℚ))
    (hacc : keysNodup acc)
    (h : lapTimesAux predict pit_loss config lap sc st hist order acc =
      some lt) :
    keysNodup lt := by
  induction order generalizing acc with
  | nil =>
    rw [lapTimesAux_nil] at h
    obtain rfl : acc = lt := Option.some.inj h
    exact hacc
  | cons n t ih =>
    rw [lapTimesAux_cons] at h
    by_cases hr : (getSt st n).running = true
    · rw [if_pos hr] at h
      cases hltf : lapTimeFor predict pit_loss config lap sc st hist n with
      | none =>
        rw [hltf] at h
        exact Option.noConfusion h
      | some tv =>
        rw [hltf] at h
        rw [Option.some_bind] at h
        exact ih _ (keysNodup_dictInsert acc n tv hacc) h
    · rw [if_neg hr] at h
      rw [Option.some_bind] at h
      exact ih _ hacc h

theorem mem_lapTimesAux (predict : List Step → List ℚ) (pit_loss : ℚ)
    (config : RaceConfig) (lap : Nat) (sc : Bool) (st : StMap) (hist : HMap)
    (order : List String) (acc lt : List (String × ℚ)) (p : String × ℚ)
    (h : lapTimesAux predict pit_loss config lap sc st hist order acc =
      some lt) (hp : p ∈ lt) :
    p ∈ acc ∨
      ((getSt st p.1).running = true ∧
        lapTimeFor predict pit_loss config lap sc st hist p.1 = some p.2) := by
  induction order generalizing acc with
  | nil =>
    rw [lapTimesAux_nil] at h
    obtain rfl : acc = lt := Option.some.inj h
    exact Or.inl hp
  | cons n t ih =>
    rw [lapTimesAux_cons] at h
    by_cases hr : (getSt st n).running = true
    · rw [if_pos hr] at h
      cases hltf : lapTimeFor predict pit_loss config lap sc st hist n with
      | none =>
        rw [hltf] at h
        exact Option.noConfusion h
      | some tv =>
        rw [hltf] at h
        rw [Option.some_bind] at h
        rcases ih _ h with h1 | h1
        · rcases mem_dictInsert acc n tv p h1 with h2 | h2
          · right
            rw [h2]
            exact ⟨hr, hltf⟩
          · exact Or.inl h2
        · exact Or.inr h1
    · rw [if_neg hr] at h
      rw [Option.some_bind] at h
      exact ih _ h

/-! ### runLap destructuring and projection preservation -/

theorem runLap_some (maxLen : Nat) (predict : List Step → List ℚ)
    (pit_loss : ℚ) (config : RaceConfig) (lap : Nat) (es : EngineState)
    (out : EngineState × TimelineEntry)
    (h : runLap maxLen predict pit_loss config lap es = some out) :
    computeLapTimes predict pit_loss config lap (isSc lap config.safety_cars)
        (applyDnfs config.dnfs lap es.state) es.history es.order =
      some out.2.lap_times ∧
    out.1.state = lapState config lap es out.2.lap_times ∧
    out.1.history = applyHistory maxLen config lap
      (isSc lap config.safety_cars) es.order out.1.state es.history ∧
    out.1.order = (reorder out.1.state es.order).1 ++
      (reorder out.1.state es.order).2 ∧
    out.2.lap = lap ∧
    out.2.order = (reorder out.1.state es.order).1 ∧
    out.2.is_sc = isSc lap config.safety_cars := by
  unfold runLap at h
  cases hct : computeLapTimes predict pit_loss config lap
      (isSc lap config.safety_cars) (applyDnfs config.dnfs lap es.state)
      es.history es.order with
  | none =>
    rw [hct] at h
    exact Option.noConfusion h
  | some lt =>
    rw [hct] at h
    obtain rfl := Option.some.inj h
    exact ⟨rfl, rfl, rfl, rfl, rfl, rfl, rfl⟩

theorem mem_of_lookup (l : List (String × α)) (k : String) (v : α)
    (h : l.lookup k = some v) : (k, v) ∈ l := by
  induction l with
  | nil => exact Option.noConfusion h
  | cons p t ih =>
    obtain ⟨a, b⟩ := p
    by_cases hk : k = a
    · subst hk
      rw [lookup_cons_eq] at h
      obtain rfl := Option.some.inj h
      exact List.mem_cons_self _ _
    · rw [lookup_cons_ne _ _ _ _ hk] at h
      exact List.mem_cons_of_mem _ (ih h)

/-- Generic projection preservation for a foldl over an order list whose
step preserves the projection at every key. -/
theorem lookup_foldl_proj {γ : Type} (proj : DriverState → γ)
    (f : StMap → String → StMap)
    (hf : ∀ acc n name, ((f acc n).lookup name).map proj =
      ((acc.lookup name).map proj)) (order : List String) (st : StMap)
    (name : String) :
    (((order.foldl f st).lookup name).map proj) =
      ((st.lookup name).map proj) := by
  induction order generalizing st with
  | nil => rfl
  | cons n t ih =>
    rw [List.foldl_cons, ih]
    exact hf st n name

theorem proj_updateKey_pres {γ : Type} (proj : DriverState → γ)
    (g : DriverState → DriverState) (hg : ∀ s, proj (g s) = proj s)
    (st : StMap) (k name : String) :
    ((updateKey st k g).lookup name).map proj =
      ((st.lookup name).map proj) := by
  rw [lookup_updateKey]
  by_cases hn : name = k
  · rw [if_pos hn]
    cases st.lookup name with
    | none => rfl
    | some s => simp [hg]
  · rw [if_neg hn]

theorem total_time_applyTyres (config : RaceConfig) (lap : Nat)
    (order : List String) (st : StMap) (name : String) :
    ((applyTyres config lap order st).lookup name).map (·.total_time) =
      (st.lookup name).map (·.total_time) := by
  refine lookup_foldl_proj _ _ ?_ order st name
  intro acc n nm
  by_cases h1 : (getSt acc n).running = true
  · rw [if_pos h1]
    by_cases h2 : willPit config n lap = true
    · rw [if_pos h2]
      refine proj_updateKey_pres _ _ ?_ acc n nm
      intro s
      rfl
    · rw [if_neg h2]
      refine proj_updateKey_pres _ _ ?_ acc n nm
      intro s
      rfl
  · rw [if_neg h1]

theorem running_applyTyres (config : RaceConfig) (lap : Nat)
    (order : List String) (st : StMap) (name : String) :
    ((applyTyres config lap order st).lookup name).map (·.running) =
      (st.lookup name).map (·.running) := by
  refine lookup_foldl_proj _ _ ?_ order st name
  intro acc n nm
  by_cases h1 : (getSt acc n).running = true
  · rw [if_pos h1]
    by_cases h2 : willPit config n lap = true
    · rw [if_pos h2]
      refine proj_updateKey_pres _ _ ?_ acc n nm
      intro s
      rfl
    · rw [if_neg h2]
      refine proj_updateKey_pres _ _ ?_ acc n nm
      intro s
      rfl
  · rw [if_neg h1]

theorem running_applyTotals (lt : List (String × ℚ)) (st : StMap)
    (name : String) :
    ((applyTotals lt st).lookup name).map (·.running) =
      (st.lookup name).map (·.running) := by
  induction lt generalizing st with
  | nil => rfl
  | cons kv t ih =>
    rw [applyTotals_cons, ih]
    refine proj_updateKey_pres _ _ ?_ st kv.1 name
    intro s
    rfl

theorem compound_applyTotals (lt : List (String × ℚ)) (st : StMap)
    (name : String) :
    ((applyTotals lt st).lookup name).map (·.compound) =
      (st.lookup name).map (·.compound) := by
  induction lt generalizing st with
  | nil => rfl
  | cons kv t ih =>
    rw [applyTotals_cons, ih]
    refine proj_updateKey_pres _ _ ?_ st kv.1 name
    intro s
    rfl

theorem tyre_age_applyTotals (lt : List (String × ℚ)) (st : StMap)
    (name : String) :
    ((applyTotals lt st).lookup name).map (·.tyre_age) =
      (st.lookup name).map (·.tyre_age) := by
  induction lt generalizing st with
  | nil => rfl
  | cons kv t ih =>
    rw [applyTotals_cons, ih]
    refine proj_updateKey_pres _ _ ?_ st kv.1 name
    intro s
    rfl

theorem total_time_applyDnfs (dnfs : List (String × Nat)) (lap : Nat)
    (st : StMap) (name : String) :
    ((applyDnfs dnfs lap st).lookup name).map (·.total_time) =
      (st.lookup name).map (·.total_time) := by
  rw [lookup_applyDnfs]
  cases st.lookup name with
  | none => rfl
  | some s =>
    cases hf : fires dnfs lap name
    · simp [hf]
    · simp [hf]

theorem keysNodup_applyDnfs (dnfs : List (String × Nat)) (lap : Nat)
    (st : StMap) (h : keysNodup st) : keysNodup (applyDnfs dnfs lap st) := by
  unfold keysNodup
  rw [keys_applyDnfs]
  exact h

theorem keysNodup_applyTotals (lt : List (String × ℚ)) (st : StMap)
    (h : keysNodup st) : keysNodup (applyTotals lt st) := by
  unfold keysNodup
  rw [keys_applyTotals]
  exact h

theorem getSt_applyTyres_of_count_one (config : RaceConfig) (lap : Nat)
    (order : List String) (st : StMap) (name : String) (hnd : keysNodup st)
    (hcount : order.count name = 1) :
    getSt (applyTyres config lap order st) name =
      tyreStep config lap name (getSt st name) := by
  rw [applyTyres_eq_keyedFold config lap order st hnd]
  unfold getSt
  rw [lookup_keyedFold_of_count_one _ _ _ _ hcount]
  cases h : st.lookup name with
  | none =>
    show default = tyreStep config lap name default
    rfl
  | some s => rfl

/-- The per-driver lap time as a map over the prediction at the last index
of the supplied sequence. -/
theorem lapTimeFor_eq (predict : List Step → List ℚ) (pit_loss : ℚ)
    (config : RaceConfig) (lap : Nat) (es : EngineState) (name : String) :
    lapTimeFor predict pit_loss config lap (isSc lap config.safety_cars)
        (preState config lap es) es.history name =
      ((predict (predInput config lap es name))[(predInput config lap es
          name).length - 1]?).map
        (fun y => if willPit config name lap then y + pit_loss else y) := by
  show (match (predict (predInput config lap es name))[(predInput config lap
        es name).length - 1]? with
    | none => none
    | some yhat =>
      some (if willPit config name lap then yhat + pit_loss else yhat)) = _
  cases h : (predict (predInput config lap es name))[(predInput config lap
      es name).length - 1]? with
  | none => rfl
  | some y => rfl

/-! ### Claim C8 -/

/-- Claim C8: for every lap n and configuration of safety-car windows, the
safety-car flag for lap n — the value passed into each driver's snapshot
and recorded in the timeline entry of the lap — is true iff n lies inside
at least one configured closed window [a, b], endpoints included,
overlapping windows also counting. -/
theorem c8_safety_car_window (config : RaceConfig) (lap : Nat) (maxLen : Nat)
    (predict : List Step → List ℚ) (pit_loss : ℚ) (es : EngineState) :
    (isSc lap config.safety_cars = true ↔
      ∃ w ∈ config.safety_cars, w.1 ≤ lap ∧ lap ≤ w.2) ∧
    (runLap maxLen predict pit_loss config lap es).map (fun o => o.2.is_sc) =
      (runLap maxLen predict pit_loss config lap es).map
        (fun _ => isSc lap config.safety_cars) ∧
    (∀ name s sc, (buildStep config name s lap sc).is_sc = sc) := by
  refine ⟨?_, ?_, fun name s sc => rfl⟩
  · unfold isSc
    rw [List.any_eq_true]
    constructor
    · rintro ⟨w, hw, hcond⟩
      rw [Bool.and_eq_true, decide_eq_true_eq, decide_eq_true_eq] at hcond
      exact ⟨w, hw, hcond.1, hcond.2⟩
    · rintro ⟨w, hw, h1, h2⟩
      exact ⟨w, hw, by rw [Bool.and_eq_true, decide_eq_true_eq,
        decide_eq_true_eq]; exact ⟨h1, h2⟩⟩
  · cases h : runLap maxLen predict pit_loss config lap es with
    | none => rfl
    | some out =>
      rw [show (some out).map (fun o => o.2.is_sc) = some out.2.is_sc
          from rfl,
        show (some out).map (fun _ => isSc lap config.safety_cars) =
          some (isSc lap config.safety_cars) from rfl,
        (runLap_some maxLen predict pit_loss config lap es out
          h).2.2.2.2.2.2]

/-- Witness for C8 at concrete inputs: lap 2 lies in the window [2, 2],
lap 3 does not. -/
theorem c8_witness :
    isSc 2 [(2, 2)] = true ∧ isSc 3 [(2, 2)] = false := by
  constructor
  · exact (c8_safety_car_window
      { circuit := "C", total_laps := 3, drivers := [],
        safety_cars := [(2, 2)] } 2 0 (fun _ => []) 0
      ⟨[], [], []⟩).1.mpr ⟨(2, 2), List.mem_singleton.mpr rfl, by decide,
        by decide⟩
  · decide

/-! ### Claim C1 -/

/-- Claim C1 (code bug): the engine calls the predictor with the rolling
history plus the current snapshot and takes the prediction at index
len(hist)-1, but once total_laps exceeds max_len the trimmed history has
max_len entries, so the supplied sequence has max_len+1 entries and the
index max_len falls outside the returned array of length max_len: with
max_len = 1 the two-lap race aborts with an IndexError (modelled as none)
on lap 2 while the one-lap race completes. -/
theorem c1_prediction_index_out_of_bounds :
    simulate 1 (constPred 90 1) [] cfgC1 = none ∧
    (simulate 1 (constPred 90 1) [] { cfgC1 with total_laps := 1 }).isSome
      = true := by
  constructor
  · rfl
  · rfl

/-! ### Claim C5 counterexample -/

/-- Claim C5 counterexample: with an entirely conforming predictor that
returns constant 90-second durations, a configuration whose caller-supplied
default_pit_loss is -200 makes driver A's cumulative_time fall from 90
after lap 1 to -20 after the pit on lap 2, so cumulative_time is not
non-decreasing for all configurations. -/
theorem c5_counterexample :
    ((runLap 2 (constPred 90 2) (pitLossUsed [] cfgC5) cfgC5 1
        (initEngine cfgC5)).bind
      (fun o1 => (runLap 2 (constPred 90 2) (pitLossUsed [] cfgC5) cfgC5 2
          o1.1).map
        (fun o2 => ((getSt o1.1.state "A").total_time,
                    (getSt o2.1.state "A").total_time)))) =
      some (90, -20) ∧ ¬((90 : ℚ) ≤ -20) := by
  constructor
  · with_unfolding_all decide
  · norm_num

theorem mem_of_getElem_eq_some (l : List ℚ) (i : Nat) (a : ℚ)
    (h : l[i]? = some a) : a ∈ l := by
  obtain ⟨hi, he⟩ := List.getElem?_eq_some.mp h
  exact he ▸ l.getElem_mem hi

/-- Any value produced by the per-driver lap-time computation is
non-negative when all predictions and the pit loss are non-negative. -/
theorem lapTimeFor_nonneg (predict : List Step → List ℚ) (pit_loss : ℚ)
    (config : RaceConfig) (lap : Nat) (es : EngineState) (name : String)
    (v : ℚ) (hpred : ∀ h x, x ∈ predict h → 0 ≤ x) (hpl : 0 ≤ pit_loss)
    (h : lapTimeFor predict pit_loss config lap (isSc lap config.safety_cars)
      (preState config lap es) es.history name = some v) : 0 ≤ v := by
  rw [lapTimeFor_eq] at h
  obtain ⟨y, hy, hfy⟩ := Option.map_eq_some'.mp h
  have h0y : 0 ≤ y :=
    hpred _ _ (mem_of_getElem_eq_some _ _ _ hy)
  by_cases hw : willPit config name lap = true
  · rw [if_pos hw] at hfy
    rw [← hfy]
    exact add_nonneg h0y hpl
  · rw [if_neg hw] at hfy
    rw [← hfy]
    exact h0y

/-- Total time after the totals phase: the old value plus the driver's
entry of the lap_times dict (0 when absent). -/
theorem total_time_after_applyTotals (lt : List (String × ℚ)) (st : StMap)
    (name : String) (hnd : keysNodup lt) (hn : lt.lookup name = none ∨
      (st.lookup name).isSome = true) :
    (getSt (applyTotals lt st) name).total_time =
      (getSt st name).total_time + (lt.lookup name).getD 0 := by
  unfold getSt
  rw [lookup_applyTotals lt st name hnd]
  cases h : st.lookup name with
  | none =>
    rcases hn with hn | hn
    · rw [hn]
      norm_num
    · rw [h] at hn
      exact absurd hn (by simp)
  | some s => rfl

/-! ### Claim C5 (amended) -/

/-- Claim C5 as amended: when every predicted value is non-negative and the
pit-loss value in use is non-negative, every driver's cumulative total_time
is non-decreasing across a lap, and it changes only if the driver's running
flag is true after the lap (so a retired driver's total never changes). -/
theorem c5_monotone_total_time (maxLen : Nat) (predict : List Step → List ℚ)
    (pit_loss : ℚ) (config : RaceConfig) (lap : Nat) (es : EngineState)
    (out : EngineState × TimelineEntry)
    (hpred : ∀ h x, x ∈ predict h → 0 ≤ x) (hpl : 0 ≤ pit_loss)
    (hout : runLap maxLen predict pit_loss config lap es = some out)
    (name : String) :
    (getSt es.state name).total_time ≤ (getSt out.1.state name).total_time ∧
    ((getSt out.1.state name).total_time ≠
        (getSt es.state name).total_time →
      (getSt out.1.state name).running = true) := by
  obtain ⟨hct, hstate, -, -, -, -, -⟩ :=
    runLap_some maxLen predict pit_loss config lap es out hout
  rw [computeLapTimes_eq_aux] at hct
  have hndlt : keysNodup out.2.lap_times :=
    keysNodup_lapTimesAux _ _ _ _ _ _ _ _ _ _ keysNodup_nil hct
  have hchar := lookup_lapTimesAux _ _ _ _ _ _ _ _ _ _ name hct
  rw [List.lookup_nil] at hchar
  have e1 : (getSt out.1.state name).total_time =
      (getSt (applyTotals out.2.lap_times
        (applyDnfs config.dnfs lap es.state)) name).total_time := by
    rw [hstate]
    unfold lapState
    exact proj_getSt_eq (·.total_time) _ _ name
      (total_time_applyTyres config lap es.order _ name)
  have e2 : (getSt (applyDnfs config.dnfs lap es.state) name).total_time =
      (getSt es.state name).total_time :=
    proj_getSt_eq (·.total_time) es.state _ name
      (total_time_applyDnfs config.dnfs lap es.state name)
  have r1 : (getSt out.1.state name).running =
      (getSt (applyDnfs config.dnfs lap es.state) name).running := by
    rw [hstate]
    unfold lapState
    rw [proj_getSt_eq (·.running) _ _ name
      (running_applyTyres config lap es.order _ name)]
    exact proj_getSt_eq (·.running) _ _ name
      (running_applyTotals out.2.lap_times _ name)
  cases hl1 : (applyDnfs config.dnfs lap es.state).lookup name with
  | none =>
    have hrf : (getSt (applyDnfs config.dnfs lap es.state) name).running =
        false := by
      rw [getSt_of_lookup_none _ _ hl1]
      rfl
    have hltn : out.2.lap_times.lookup name = none := by
      rw [hchar, if_neg]
      intro hh
      rw [hrf] at hh
      exact Bool.false_ne_true hh.2
    have e3 := total_time_after_applyTotals out.2.lap_times
      (applyDnfs config.dnfs lap es.state) name hndlt (Or.inl hltn)
    have heq : (getSt out.1.state name).total_time =
        (getSt es.state name).total_time := by
      rw [e1, e3, hltn]
      simp [e2]
    exact ⟨le_of_eq heq.symm, fun hne => absurd heq hne⟩
  | some s =>
    have e3 := total_time_after_applyTotals out.2.lap_times
      (applyDnfs config.dnfs lap es.state) name hndlt
      (Or.inr (by rw [hl1]; rfl))
    have hq : 0 ≤ (out.2.lap_times.lookup name).getD 0 := by
      cases hlv : out.2.lap_times.lookup name with
      | none => simp
      | some v =>
        have hmem := mem_of_lookup _ _ _ hlv
        rcases mem_lapTimesAux _ _ _ _ _ _ _ _ _ _ (name, v) hct hmem with
          h0 | h0
        · exact absurd h0 (List.not_mem_nil _)
        · simpa using lapTimeFor_nonneg predict pit_loss config lap es name
            v hpred hpl h0.2
    constructor
    · rw [e1, e3, e2]
      exact le_add_of_nonneg_right hq
    · intro hne
      have hgd : (out.2.lap_times.lookup name).getD 0 ≠ 0 := by
        intro h0
        apply hne
        rw [e1, e3, h0, add_zero, e2]
      have hsome : ∃ v, out.2.lap_times.lookup name = some v := by
        cases hlv : out.2.lap_times.lookup name with
        | none => exact absurd (by rw [hlv]; rfl) hgd
        | some v => exact ⟨v, rfl⟩
      obtain ⟨v, hv⟩ := hsome
      have hcond : name ∈ es.order ∧
          (getSt (applyDnfs config.dnfs lap es.state) name).running =
            true := by
        by_contra hcc
        rw [hchar, if_neg hcc] at hv
        exact Option.noConfusion hv
      rw [r1]
      exact hcond.2

/-- Witness for C5 as amended: constant 90-second predictions and pit loss
22 keep driver A's cumulative time non-decreasing over lap 1. -/
theorem c5_witness :
    (runLap 5 (constPred 90 5) 22 cfgC2 1 (initEngine cfgC2)).map
        (fun o => decide ((getSt (initEngine cfgC2).state "A").total_time ≤
          (getSt o.1.state "A").total_time)) = some true := by
  cases h : runLap 5 (constPred 90 5) 22 cfgC2 1 (initEngine cfgC2) with
  | none => exact absurd h (by with_unfolding_all decide)
  | some out =>
    have hm := (c5_monotone_total_time 5 (constPred 90 5) 22 cfgC2 1
      (initEngine cfgC2) out
      (fun hseq x hx => by
        have : x = 90 := by
          simpa [constPred] using List.eq_of_mem_replicate hx
        rw [this]
        norm_num)
      (by norm_num) h "A").1
    show some (decide _) = some true
    rw [decide_eq_true hm]

/-! ### History lemmas for C6 -/

theorem length_pyTakeLast_le (k : Nat) (l : List α) (hk : 1 ≤ k) :
    (pyTakeLast k l).length ≤ k := by
  unfold pyTakeLast
  rw [if_neg (by omega)]
  rw [List.length_drop]
  omega

theorem pyTakeLast_sublist (k : Nat) (l : List α) :
    (pyTakeLast k l).Sublist l := by
  unfold pyTakeLast
  split
  · exact List.Sublist.refl l
  · exact List.drop_sublist _ l

theorem lookup_keyedFold_pres {P : α → Prop} (g : String → α → α)
    (order : List String) (m : List (String × α)) (name : String)
    (hg : ∀ n v, P v → P (g n v))
    (h0 : ∀ v, m.lookup name = some v → P v) :
    ∀ v, (keyedFold g order m).lookup name = some v → P v := by
  induction order generalizing m with
  | nil => exact h0
  | cons n t ih =>
    rw [keyedFold_cons]
    refine ih _ ?_
    intro v hv
    rw [lookup_updateKey] at hv
    by_cases hn : name = n
    · rw [if_pos hn] at hv
      obtain ⟨w, hw, hfw⟩ := Option.map_eq_some'.mp hv
      exact hfw ▸ hg n w (h0 w hw)
    · rw [if_neg hn] at hv
      exact h0 v hv

theorem histStep_length_le (maxLen : Nat) (config : RaceConfig) (lap : Nat)
    (sc : Bool) (st : StMap) (hml : 1 ≤ maxLen) (n : String)
    (v : List Step) (hv : v.length ≤ maxLen) :
    (histStep maxLen config lap sc st n v).length ≤ maxLen := by
  unfold histStep
  split
  · exact length_pyTakeLast_le maxLen _ hml
  · exact hv

/-! ### Claim C6 -/

/-- Claim C6: every driver's rolling history keeps length at most max_len
across a lap; for a driver listed once in the order, the new history is
exactly the old history plus the post-update snapshot of this lap trimmed
to the last max_len entries (FIFO eviction of the oldest ones, unchanged
for a non-running driver); and the entries stay in strictly increasing
lap order. -/
theorem c6_history_bound (maxLen : Nat) (predict : List Step → List ℚ)
    (pit_loss : ℚ) (config : RaceConfig) (lap : Nat) (es : EngineState)
    (out : EngineState × TimelineEntry) (name : String) (hml : 1 ≤ maxLen)
    (hout : runLap maxLen predict pit_loss config lap es = some out) :
    (∀ n2, (getHist es.history n2).length ≤ maxLen →
      (getHist out.1.history n2).length ≤ maxLen) ∧
    (es.order.count name = 1 →
      out.1.history.lookup name = (es.history.lookup name).map (fun l =>
        if (getSt out.1.state name).running = true then
          pyTakeLast maxLen (l ++ [buildStep config name
            (getSt out.1.state name) lap (isSc lap config.safety_cars)])
        else l)) ∧
    (es.order.count name = 1 →
      ((getHist es.history name).map (·.lap_number)).Chain' (· < ·) →
      (∀ x ∈ getHist es.history name, x.lap_number < lap) →
      ((getHist out.1.history name).map (·.lap_number)).Chain' (· < ·)) := by
  obtain ⟨-, -, hhist, -, -, -, -⟩ :=
    runLap_some maxLen predict pit_loss config lap es out hout
  rw [applyHistory_eq_keyedFold] at hhist
  refine ⟨?_, ?_, ?_⟩
  · intro n2 hlen
    rw [hhist]
    cases hnew : (keyedFold (histStep maxLen config lap
        (isSc lap config.safety_cars) out.1.state) es.order
        es.history).lookup n2 with
    | none =>
      unfold getHist
      rw [hnew]
      show (0 : Nat) ≤ maxLen
      omega
    | some v =>
      unfold getHist
      rw [hnew]
      show v.length ≤ maxLen
      refine @lookup_keyedFold_pres _ (fun w => w.length ≤ maxLen) _
        es.order es.history n2 ?_ ?_ v hnew
      · intro n w hw
        exact histStep_length_le maxLen config lap _ out.1.state hml n w hw
      · intro w hw
        unfold getHist at hlen
        rw [hw] at hlen
        exact hlen
  · intro hcount
    rw [hhist, lookup_keyedFold_of_count_one _ _ _ _ hcount]
    rfl
  · intro hcount hchain hall
    rw [hhist]
    unfold getHist
    rw [lookup_keyedFold_of_count_one _ _ _ _ hcount]
    cases hl : es.history.lookup name with
    | none => simp
    | some l =>
      unfold getHist at hchain hall
      rw [hl] at hchain hall
      show ((histStep maxLen config lap (isSc lap config.safety_cars)
        out.1.state name l).map (·.lap_number)).Chain' (· < ·)
      unfold histStep
      split
      · have hch : ((l ++ [buildStep config name (getSt out.1.state name)
            lap (isSc lap config.safety_cars)]).map
              (·.lap_number)).Chain' (· < ·) := by
          rw [List.map_append, List.chain'_append]
          refine ⟨hchain, List.chain'_singleton _, ?_⟩
          intro x hx y hy
          simp only [List.map_cons, List.map_nil, List.head?_cons,
            Option.mem_def, Option.some.injEq] at hy
          obtain ⟨a, ha, hax⟩ := List.mem_map.mp
            (List.mem_of_mem_getLast? hx)
          rw [← hy, ← hax]
          show a.lap_number < (buildStep config name _ lap _).lap_number
          exact hall a ha
        refine hch.sublist ?_
        exact List.Sublist.map (fun (s : Step) => s.lap_number)
          (pyTakeLast_sublist maxLen _)
      · exact hchain

/-- Witness for C6: one lap from an empty history keeps the length within
max_len = 1. -/
theorem c6_witness :
    (runLap 1 (constPred 90 1) 22 cfgC2 1 (initEngine cfgC2)).map
        (fun o => decide ((getHist o.1.history "A").length ≤ 1)) =
      some true := by
  cases h : runLap 1 (constPred 90 1) 22 cfgC2 1 (initEngine cfgC2) with
  | none => exact absurd h (by with_unfolding_all decide)
  | some out =>
    have hb := (c6_history_bound 1 (constPred 90 1) 22 cfgC2 1
      (initEngine cfgC2) out "A" (by omega) h).1 "A"
      (by with_unfolding_all decide)
    show some (decide _) = some true
    rw [decide_eq_true hb]

/-! ### Claim C2 -/

/-- Claim C2: on any lap, for a running driver with a pit event this lap
the recorded lap time is the prediction taken on the pre-pit snapshot
(predInput uses the pre-pit compound and tyre_age) plus the pit-loss value,
and the post-lap state has the planned target compound and tyre_age 0; a
running driver without a pit event records the bare prediction, keeps its
compound and has tyre_age incremented by 1. -/
theorem c2_pit_lap_semantics (maxLen : Nat) (predict : List Step → List ℚ)
    (pit_loss : ℚ) (config : RaceConfig) (lap : Nat) (es : EngineState)
    (out : EngineState × TimelineEntry) (name : String)
    (hnd : keysNodup es.state)
    (hcount : es.order.count name = 1)
    (hrun : (getSt (preState config lap es) name).running = true)
    (hout : runLap maxLen predict pit_loss config lap es = some out) :
    (willPit config name lap = true →
      out.2.lap_times.lookup name =
        ((predict (predInput config lap es name))[(predInput config lap es
            name).length - 1]?).map (fun yhat => yhat + pit_loss) ∧
      (∀ c, pitTarget config name lap = some c →
        (getSt out.1.state name).compound = c) ∧
      (getSt out.1.state name).tyre_age = 0) ∧
    (willPit config name lap = false →
      out.2.lap_times.lookup name =
        (predict (predInput config lap es name))[(predInput config lap es
            name).length - 1]? ∧
      (getSt out.1.state name).tyre_age =
        (getSt (preState config lap es) name).tyre_age + 1 ∧
      (getSt out.1.state name).compound =
        (getSt (preState config lap es) name).compound) := by
  obtain ⟨hct, hstate, -, -, -, -, -⟩ :=
    runLap_some maxLen predict pit_loss config lap es out hout
  rw [computeLapTimes_eq_aux] at hct
  have hmem : name ∈ es.order := List.count_pos_iff.mp (by omega)
  have hlk := lookup_lapTimesAux predict pit_loss config lap
    (isSc lap config.safety_cars) (applyDnfs config.dnfs lap es.state)
    es.history es.order [] out.2.lap_times name hct
  rw [if_pos ⟨hmem, hrun⟩] at hlk
  have hlk2 : out.2.lap_times.lookup name =
      ((predict (predInput config lap es name))[(predInput config lap es
          name).length - 1]?).map
        (fun y => if willPit config name lap then y + pit_loss else y) := by
    rw [hlk]
    exact lapTimeFor_eq predict pit_loss config lap es name
  have hnd1 : keysNodup (applyDnfs config.dnfs lap es.state) :=
    keysNodup_applyDnfs config.dnfs lap es.state hnd
  have hnd2 : keysNodup
      (applyTotals out.2.lap_times (applyDnfs config.dnfs lap es.state)) :=
    keysNodup_applyTotals _ _ hnd1
  have hgetSt : getSt out.1.state name =
      tyreStep config lap name
        (getSt (applyTotals out.2.lap_times
          (applyDnfs config.dnfs lap es.state)) name) := by
    rw [hstate]
    exact getSt_applyTyres_of_count_one config lap es.order _ name hnd2
      hcount
  have hr2 : (getSt (applyTotals out.2.lap_times
      (applyDnfs config.dnfs lap es.state)) name).running = true := by
    rw [proj_getSt_eq (·.running) _ _ name (running_applyTotals _ _ name)]
    exact hrun
  have hage2 : (getSt (applyTotals out.2.lap_times
      (applyDnfs config.dnfs lap es.state)) name).tyre_age =
      (getSt (preState config lap es) name).tyre_age :=
    proj_getSt_eq (·.tyre_age) _ _ name (tyre_age_applyTotals _ _ name)
  have hcomp2 : (getSt (applyTotals out.2.lap_times
      (applyDnfs config.dnfs lap es.state)) name).compound =
      (getSt (preState config lap es) name).compound :=
    proj_getSt_eq (·.compound) _ _ name (compound_applyTotals _ _ name)
  constructor
  · intro hw
    refine ⟨?_, ?_, ?_⟩
    · rw [hlk2]
      cases (predict (predInput config lap es name))[(predInput config lap
          es name).length - 1]? with
      | none => rfl
      | some y =>
        show some (if willPit config name lap = true then y + pit_loss
          else y) = some (y + pit_loss)
        rw [if_pos hw]
    · intro c hc
      rw [hgetSt]
      unfold tyreStep
      rw [if_pos hr2, if_pos hw, hc]
      rfl
    · rw [hgetSt]
      unfold tyreStep
      rw [if_pos hr2, if_pos hw]
  · intro hw
    have hwf : ¬(willPit config name lap = true) := by
      rw [hw]
      exact Bool.false_ne_true
    refine ⟨?_, ?_, ?_⟩
    · rw [hlk2]
      cases (predict (predInput config lap es name))[(predInput config lap
          es name).length - 1]? with
      | none => rfl
      | some y =>
        show some (if willPit config name lap = true then y + pit_loss
          else y) = some y
        rw [if_neg hwf]
    · rw [hgetSt]
      unfold tyreStep
      rw [if_pos hr2, if_neg hwf]
      show (getSt (applyTotals out.2.lap_times
        (applyDnfs config.dnfs lap es.state)) name).tyre_age + 1 = _
      rw [hage2]
    · rw [hgetSt]
      unfold tyreStep
      rw [if_pos hr2, if_neg hwf]
      show (getSt (applyTotals out.2.lap_times
        (applyDnfs config.dnfs lap es.state)) name).compound = _
      rw [hcomp2]

/-- Witness for C2: the spec scenario with constant 90-second predictions
and a 22-second pit loss on a lap-2 pit gives a recorded 112-second lap,
tyre_age 0 and the new compound Y. -/
theorem c2_witness :
    (runLap 5 (constPred 90 5) 22 cfgC2 2 (initEngine cfgC2)).map
        (fun o => (o.2.lap_times.lookup "A",
                   (getSt o.1.state "A").tyre_age,
                   (getSt o.1.state "A").compound)) =
      some (some 112, 0, "Y") := by
  cases h : runLap 5 (constPred 90 5) 22 cfgC2 2 (initEngine cfgC2) with
  | none => exact absurd h (by with_unfolding_all decide)
  | some out =>
    have hc := c2_pit_lap_semantics 5 (constPred 90 5) 22 cfgC2 2
      (initEngine cfgC2) out "A" (by with_unfolding_all decide)
      (by with_unfolding_all decide) (by with_unfolding_all decide) h
    obtain ⟨h1, h2, h3⟩ := hc.1 (by with_unfolding_all decide)
    rw [show (some out).map (fun (o : EngineState × TimelineEntry) =>
        (o.2.lap_times.lookup "A", (getSt o.1.state "A").tyre_age,
          (getSt o.1.state "A").compound)) =
      some (out.2.lap_times.lookup "A", (getSt out.1.state "A").tyre_age,
        (getSt out.1.state "A").compound) from rfl]
    rw [h1, h3, h2 "Y" (by with_unfolding_all decide)]
    with_unfolding_all decide

/-! ### Keys preservation across a lap -/

theorem keys_applyTyres (config : RaceConfig) (lap : Nat)
    (order : List String) (st : StMap) :
    (applyTyres config lap order st).map (·.1) = st.map (·.1) := by
  induction order generalizing st with
  | nil => rfl
  | cons n t ih =>
    rw [applyTyres_cons, ih]
    by_cases h1 : (getSt st n).running = true
    · rw [if_pos h1]
      by_cases h2 : willPit config n lap = true
      · rw [if_pos h2, keys_updateKey]
      · rw [if_neg h2, keys_updateKey]
    · rw [if_neg h1]

theorem keys_lapState (config : RaceConfig) (lap : Nat) (es : EngineState)
    (lt : List (String × ℚ)) :
    (lapState config lap es lt).map (·.1) = es.state.map (·.1) := by
  unfold lapState
  rw [keys_applyTyres, keys_applyTotals, keys_applyDnfs]

theorem keys_runLap_state (maxLen : Nat) (predict : List Step → List ℚ)
    (pit_loss : ℚ) (config : RaceConfig) (lap : Nat) (es : EngineState)
    (out : EngineState × TimelineEntry)
    (h : runLap maxLen predict pit_loss config lap es = some out) :
    out.1.state.map (·.1) = es.state.map (·.1) := by
  obtain ⟨-, hstate, -, -, -, -, -⟩ :=
    runLap_some maxLen predict pit_loss config lap es out h
  rw [hstate]
  exact keys_lapState config lap es out.2.lap_times

/-! ### Claim C10 -/

theorem lookup_foldl_dictInsert {α : Type} (f : DriverSpec → α)
    (l : List DriverSpec) (acc : List (String × α)) (name : String)
    (hl : name ∉ l.map (·.name)) :
    (l.foldl (fun acc d => dictInsert acc d.name (f d)) acc).lookup name =
      acc.lookup name := by
  induction l generalizing acc with
  | nil => rfl
  | cons d t ih =>
    simp only [List.map_cons, List.mem_cons] at hl
    push_neg at hl
    rw [List.foldl_cons, ih _ hl.2, lookup_dictInsert, if_neg hl.1]

theorem lookup_initState_not_mem (config : RaceConfig) (name : String)
    (h : name ∉ rosterNames config) :
    (initState config).lookup name = none :=
  lookup_foldl_dictInsert initDriver config.drivers [] name h

theorem applyDnfs_middle_not_mem (l1 l2 : List (String × Nat))
    (name : String) (lapd lap : Nat) (st : StMap)
    (h : name ∉ st.map (·.1)) :
    applyDnfs (l1 ++ (name, lapd) :: l2) lap st =
      applyDnfs (l1 ++ l2) lap st := by
  induction l1 generalizing st with
  | nil =>
    rw [List.nil_append, List.nil_append, applyDnfs_cons]
    rw [if_neg]
    intro hc
    rw [(lookup_eq_none_iff st name).mpr h] at hc
    exact absurd hc.2.1 (by simp)
  | cons nd t ih =>
    rw [List.cons_append, List.cons_append, applyDnfs_cons, applyDnfs_cons]
    by_cases hc : nd.2 = lap ∧ (st.lookup nd.1).isSome = true ∧
        (getSt st nd.1).running = true
    · rw [if_pos hc]
      refine ih _ ?_
      rw [keys_updateKey]
      exact h
    · rw [if_neg hc]
      exact ih st h

theorem runLap_dnfs_middle (maxLen : Nat) (predict : List Step → List ℚ)
    (pit_loss : ℚ) (config : RaceConfig) (l1 l2 : List (String × Nat))
    (name : String) (lapd lap : Nat) (es : EngineState)
    (hes : name ∉ es.state.map (·.1)) :
    runLap maxLen predict pit_loss
        { config with dnfs := l1 ++ (name, lapd) :: l2 } lap es =
      runLap maxLen predict pit_loss
        { config with dnfs := l1 ++ l2 } lap es := by
  have hds : applyDnfs ({ config with dnfs := l1 ++ (name, lapd) :: l2} :
      RaceConfig).dnfs lap es.state =
    applyDnfs ({ config with dnfs := l1 ++ l2 } : RaceConfig).dnfs lap
      es.state := applyDnfs_middle_not_mem l1 l2 name lapd lap es.state hes
  have hls : ∀ lt, lapState { config with dnfs := l1 ++ (name, lapd) :: l2 }
      lap es lt = lapState { config with dnfs := l1 ++ l2 } lap es lt := by
    intro lt
    unfold lapState
    rw [hds]
    exact rfl
  unfold runLap
  rw [hds]
  simp only [hls]
  exact rfl

theorem simLoop_cons (maxLen : Nat) (predict : List Step → List ℚ)
    (pit_loss : ℚ) (config : RaceConfig) (lap : Nat) (t : List Nat)
    (acc : EngineState × List TimelineEntry) :
    simLoop maxLen predict pit_loss config (lap :: t) acc =
      (simStep maxLen predict pit_loss config acc lap).bind
        (fun a => simLoop maxLen predict pit_loss config t a) := by
  unfold simLoop
  rw [List.foldlM_cons]
  rfl

theorem simLoop_dnfs_middle (maxLen : Nat) (predict : List Step → List ℚ)
    (pit_loss : ℚ) (config : RaceConfig) (l1 l2 : List (String × Nat))
    (name : String) (lapd : Nat) (laps : List Nat)
    (acc : EngineState × List TimelineEntry)
    (hes : name ∉ acc.1.state.map (·.1)) :
    simLoop maxLen predict pit_loss
        { config with dnfs := l1 ++ (name, lapd) :: l2 } laps acc =
      simLoop maxLen predict pit_loss
        { config with dnfs := l1 ++ l2 } laps acc := by
  induction laps generalizing acc with
  | nil => rfl
  | cons lap t ih =>
    rw [simLoop_cons, simLoop_cons]
    unfold simStep
    rw [runLap_dnfs_middle maxLen predict pit_loss config l1 l2 name lapd
      lap acc.1 hes]
    cases h : runLap maxLen predict pit_loss
        { config with dnfs := l1 ++ l2 } lap acc.1 with
    | none => rfl
    | some out =>
      show (simLoop _ _ _ _ t (out.1, acc.2 ++ [out.2])) = _
      refine ih (out.1, acc.2 ++ [out.2]) ?_
      show name ∉ out.1.state.map (·.1)
      rw [keys_runLap_state _ _ _ _ _ _ _ h]
      exact hes

/-- Claim C10: a retirement entry naming a driver outside the configured
roster is silently ignored: the simulation result is identical to the one
with that entry removed (so it raises no error and changes no state). -/
theorem c10_unknown_dnf_ignored (maxLen : Nat)
    (predict : List Step → List ℚ) (table : List (String × ℚ))
    (config : RaceConfig) (l1 l2 : List (String × Nat)) (name : String)
    (lapd : Nat) (hname : name ∉ rosterNames config) :
    simulate maxLen predict table
        { config with dnfs := l1 ++ (name, lapd) :: l2 } =
      simulate maxLen predict table { config with dnfs := l1 ++ l2 } := by
  unfold simulate
  rw [simLoop_dnfs_middle maxLen predict _ config l1 l2 name lapd _ _
    (by
      show name ∉ (initState _).map (·.1)
      rw [← lookup_eq_none_iff]
      exact lookup_initState_not_mem _ name hname)]
  rfl

/-! ### Claim C9 -/

theorem median_isSome (l : List ℚ) (h : l ≠ []) :
    (median l).isSome = true := by
  unfold median
  have hlen : ¬(l.length = 0) := fun hh => h (List.length_eq_zero.mp hh)
  rw [if_neg hlen]
  by_cases hodd : l.length % 2 = 1
  · rw [if_pos hodd]
    have hi : l.length / 2 < (List.insertionSort (· ≤ ·) l).length := by
      rw [List.length_insertionSort]
      omega
    rw [List.getElem?_eq_getElem hi]
    rfl
  · rw [if_neg hodd]
    have hi1 : l.length / 2 - 1 <
        (List.insertionSort (· ≤ ·) l).length := by
      rw [List.length_insertionSort]
      omega
    have hi2 : l.length / 2 < (List.insertionSort (· ≤ ·) l).length := by
      rw [List.length_insertionSort]
      omega
    rw [List.getElem?_eq_getElem hi1, List.getElem?_eq_getElem hi2]
    rfl

theorem median_nil : median [] = none := rfl

theorem lookup_filterMap_keyed {β : Type} (f : String → Option β)
    (cs : List String) (c : String) (hnd : cs.Nodup) :
    (cs.filterMap fun x => (f x).map fun v => (x, v)).lookup c =
      if c ∈ cs then f c else none := by
  induction cs with
  | nil => simp
  | cons x t ih =>
    rw [List.nodup_cons] at hnd
    rw [List.filterMap_cons]
    cases hfx : f x with
    | none =>
      show (List.filterMap (fun x => (f x).map fun v => (x, v)) t).lookup c
        = _
      rw [ih hnd.2]
      by_cases hc : c = x
      · subst hc
        rw [if_neg hnd.1, if_pos (List.mem_cons_self c t), hfx]
      · by_cases hct : c ∈ t
        · rw [if_pos hct, if_pos (List.mem_cons_of_mem x hct)]
        · rw [if_neg hct, if_neg (by
            intro hh
            rcases List.mem_cons.mp hh with h1 | h1
            · exact hc h1
            · exact hct h1)]
    | some v =>
      show ((x, v) ::
        List.filterMap (fun x => (f x).map fun v => (x, v)) t).lookup c = _
      by_cases hc : c = x
      · subst hc
        rw [lookup_cons_eq, if_pos (List.mem_cons_self c t), hfx]
      · rw [lookup_cons_ne _ _ _ _ hc, ih hnd.2]
        by_cases hct : c ∈ t
        · rw [if_pos hct, if_pos (List.mem_cons_of_mem x hct)]
        · rw [if_neg hct, if_neg (by
            intro hh
            rcases List.mem_cons.mp hh with h1 | h1
            · exact hc h1
            · exact hct h1)]

theorem estimatePitLossFor_of_not_mem (df : List LapRecord) (c : String)
    (h : c ∉ df.map (·.circuit)) : estimatePitLossFor df c = none := by
  have hempty : df.filter (fun r => r.circuit == c) = [] := by
    rw [List.filter_eq_nil_iff]
    intro r hr hbeq
    rw [beq_iff_eq] at hbeq
    exact h (hbeq ▸ List.mem_map_of_mem (fun x => x.circuit) hr)
  simp only [estimatePitLossFor]
  rw [hempty]
  rfl

theorem lookup_estimatePitLoss (df : List LapRecord) (c : String) :
    (estimatePitLoss df).lookup c = estimatePitLossFor df c := by
  unfold estimatePitLoss
  rw [lookup_filterMap_keyed (estimatePitLossFor df) _ c
    (List.nodup_dedup _)]
  by_cases hc : c ∈ (df.map (·.circuit)).dedup
  · rw [if_pos hc]
  · rw [if_neg hc]
    rw [List.mem_dedup] at hc
    exact (estimatePitLossFor_of_not_mem df c hc).symm

theorem estimatePitLossFor_eq_raw (df : List LapRecord) (c : String) :
    estimatePitLossFor df c = (pitLossRaw df c).bind
      (fun loss => if 5 < loss ∧ loss < 60 then some loss else none) := by
  simp only [estimatePitLossFor, pitLossRaw]
  cases h1 : median ((((df.filter fun r => r.circuit == c).filter
      fun r => r.pit_this_lap == false)).map (·.lap_time_s)) with
  | none => rfl
  | some med_base =>
    show (match median ((((df.filter fun r => r.circuit == c).filter
          fun r => r.pit_this_lap == true)).map
            fun r => r.lap_time_s - med_base) with
      | none => none
      | some loss => if 5 < loss ∧ loss < 60 then some loss else none) =
      (median ((((df.filter fun r => r.circuit == c).filter
          fun r => r.pit_this_lap == true)).map
            fun r => r.lap_time_s - med_base)).bind
        fun loss => if 5 < loss ∧ loss < 60 then some loss else none
    cases h2 : median ((((df.filter fun r => r.circuit == c).filter
        fun r => r.pit_this_lap == true)).map
          fun r => r.lap_time_s - med_base) with
    | none => rfl
    | some loss => rfl

/-- Claim C9: for a circuit with at least one pit-lap and one non-pit-lap
record, the estimator computes the median of (pit lap time minus the
median non-pit lap time) over that circuit's pit laps, keeps the estimate
exactly when it lies strictly inside (5, 60), and a circuit without a kept
estimate makes the simulation use the caller-supplied default pit loss
(which the result records as pit_loss_used). -/
theorem c9_pit_loss_estimator (df : List LapRecord) (c : String) :
    ((df.filter fun r => r.circuit == c).filter
        (fun r => r.pit_this_lap == false) ≠ [] →
      (df.filter fun r => r.circuit == c).filter
        (fun r => r.pit_this_lap == true) ≠ [] →
      (pitLossRaw df c).isSome = true) ∧
    (∀ l, (estimatePitLoss df).lookup c = some l →
      (5 < l ∧ l < 60) ∧ pitLossRaw df c = some l) ∧
    (∀ l, pitLossRaw df c = some l → ¬(5 < l ∧ l < 60) →
      (estimatePitLoss df).lookup c = none) ∧
    (∀ (table : List (String × ℚ)) (config : RaceConfig),
      table.lookup config.circuit = none →
      pitLossUsed table config = config.default_pit_loss) ∧
    (∀ (maxLen : Nat) (predict : List Step → List ℚ)
        (table : List (String × ℚ)) (config : RaceConfig) (res : SimResult),
      simulate maxLen predict table config = some res →
      res.pit_loss_used = pitLossUsed table config) := by
  refine ⟨?_, ?_, ?_, ?_, ?_⟩
  · intro hbase hpits
    simp only [pitLossRaw]
    cases h1 : median ((((df.filter fun r => r.circuit == c).filter
        fun r => r.pit_this_lap == false)).map (·.lap_time_s)) with
    | none =>
      have hs := median_isSome ((((df.filter fun r => r.circuit == c).filter
        fun r => r.pit_this_lap == false)).map (·.lap_time_s))
        (by
          intro hh
          exact hbase (List.map_eq_nil_iff.mp hh))
      rw [h1] at hs
      simp at hs
    | some med_base =>
      exact median_isSome _ (by
        intro hh
        exact hpits (List.map_eq_nil_iff.mp hh))
  · intro l hl
    rw [lookup_estimatePitLoss, estimatePitLossFor_eq_raw] at hl
    cases hraw : pitLossRaw df c with
    | none =>
      rw [hraw] at hl
      exact Option.noConfusion hl
    | some v =>
      rw [hraw, Option.some_bind] at hl
      by_cases hband : 5 < v ∧ v < 60
      · rw [if_pos hband] at hl
        obtain rfl := Option.some.inj hl
        exact ⟨hband, rfl⟩
      · rw [if_neg hband] at hl
        exact Option.noConfusion hl
  · intro l hl hband
    rw [lookup_estimatePitLoss, estimatePitLossFor_eq_raw, hl,
      Option.some_bind, if_neg hband]
  · intro table config h
    unfold pitLossUsed
    rw [h]
    rfl
  · intro maxLen predict table config res hres
    unfold simulate at hres
    cases hloop : simLoop maxLen predict (pitLossUsed table config) config
        (List.range' 1 config.total_laps) (initEngine config, []) with
    | none =>
      rw [hloop] at hres
      exact Option.noConfusion hres
    | some a =>
      rw [hloop] at hres
      obtain rfl := Option.some.inj hres
      rfl

/-- Witness for C9: a circuit whose pit laps run 20 seconds over the
median non-pit time yields a kept estimate of 20; an empty table makes the
simulation fall back to the default pit loss. -/
theorem c9_witness :
    ((5 : ℚ) < 20 ∧ (20 : ℚ) < 60) ∧
    pitLossRaw
      [⟨"M", 80, false⟩, ⟨"M", 80, false⟩, ⟨"M", 80, false⟩,
       ⟨"M", 100, true⟩, ⟨"M", 100, true⟩] "M" = some 20 ∧
    pitLossUsed [] cfgC2 = cfgC2.default_pit_loss := by
  have h := (c9_pit_loss_estimator
    [⟨"M", 80, false⟩, ⟨"M", 80, false⟩, ⟨"M", 80, false⟩,
     ⟨"M", 100, true⟩, ⟨"M", 100, true⟩] "M").2.1 20
    (by with_unfolding_all decide)
  refine ⟨h.1, h.2, ?_⟩
  exact (c9_pit_loss_estimator [] "M").2.2.2.1 [] cfgC2 rfl

/-- Witness for C10: a ghost retirement entry leaves the two-driver race
result unchanged. -/
theorem c10_witness :
    simulate 5 (constPred 90 5) []
        { cfgC2 with dnfs := [("Ghost", 1)] } =
      simulate 5 (constPred 90 5) [] { cfgC2 with dnfs := [] } := by
  have h := c10_unknown_dnf_ignored 5 (constPred 90 5) [] cfgC2 [] []
    "Ghost" 1 (by with_unfolding_all decide)
  exact h

/-! ### Initial state lemmas -/

theorem keys_foldl_dictInsert_aux {α : Type} (f : DriverSpec → α)
    (l : List DriverSpec) (acc : List (String × α))
    (hd : (l.map (·.name)).Nodup)
    (hdisj : ∀ d ∈ l, d.name ∉ acc.map (·.1)) :
    (l.foldl (fun acc d => dictInsert acc d.name (f d)) acc).map (·.1) =
      acc.map (·.1) ++ l.map (·.name) := by
  induction l generalizing acc with
  | nil => simp
  | cons d t ih =>
    simp only [List.map_cons, List.nodup_cons] at hd
    rw [List.foldl_cons]
    have hnot : d.name ∉ acc.map (·.1) :=
      hdisj d (List.mem_cons_self d t)
    rw [ih _ hd.2 (by
      intro e he
      rw [keys_dictInsert_of_not_mem _ _ _ hnot]
      intro hmem
      rcases List.mem_append.mp hmem with h1 | h1
      · exact hdisj e (List.mem_cons_of_mem d he) h1
      · rw [List.mem_singleton] at h1
        exact hd.1 (h1 ▸ List.mem_map_of_mem (fun x => x.name) he)),
      keys_dictInsert_of_not_mem _ _ _ hnot, List.append_assoc]
    rfl

theorem keys_initState (config : RaceConfig)
    (h : (rosterNames config).Nodup) :
    (initState config).map (·.1) = rosterNames config := by
  have := keys_foldl_dictInsert_aux initDriver config.drivers [] h
    (by intro d hd; simp)
  simpa using this

theorem mem_keys_foldl_dictInsert {α : Type} (f : DriverSpec → α)
    (l : List DriverSpec) (acc : List (String × α)) (name : String)
    (h : name ∈ l.map (·.name) ∨ name ∈ acc.map (·.1)) :
    name ∈ (l.foldl (fun acc d => dictInsert acc d.name (f d))
      acc).map (·.1) := by
  induction l generalizing acc with
  | nil =>
    rcases h with h | h
    · exact absurd h (by simp)
    · exact h
  | cons d t ih =>
    rw [List.foldl_cons]
    refine ih _ ?_
    have hkeys : name ∈ acc.map (·.1) ∨ name = d.name →
        name ∈ (dictInsert acc d.name (f d)).map (·.1) := by
      intro hcase
      by_cases hmem : d.name ∈ acc.map (·.1)
      · rw [keys_dictInsert_of_mem _ _ _ hmem]
        rcases hcase with h1 | h1
        · exact h1
        · exact h1 ▸ hmem
      · rw [keys_dictInsert_of_not_mem _ _ _ hmem]
        rcases hcase with h1 | h1
        · exact List.mem_append.mpr (Or.inl h1)
        · exact List.mem_append.mpr (Or.inr (by simp [h1]))
    rcases h with h | h
    · simp only [List.map_cons, List.mem_cons] at h
      rcases h with h | h
      · exact Or.inr (hkeys (Or.inr h))
      · exact Or.inl h
    · exact Or.inr (hkeys (Or.inl h))

theorem mem_keys_initState (config : RaceConfig) (name : String)
    (h : name ∈ rosterNames config) :
    name ∈ (initState config).map (·.1) :=
  mem_keys_foldl_dictInsert initDriver config.drivers [] name (Or.inl h)

theorem lookup_foldl_dictInsert_values {α : Type} {P : α → Prop}
    (f : DriverSpec → α) (l : List DriverSpec) (acc : List (String × α))
    (name : String) (v : α)
    (hacc : ∀ w, acc.lookup name = some w → P w) (hf : ∀ d, P (f d))
    (h : (l.foldl (fun acc d => dictInsert acc d.name (f d))
      acc).lookup name = some v) : P v := by
  induction l generalizing acc with
  | nil => exact hacc v h
  | cons d t ih =>
    rw [List.foldl_cons] at h
    refine ih _ ?_ h
    intro w hw
    rw [lookup_dictInsert] at hw
    by_cases hn : name = d.name
    · rw [if_pos hn] at hw
      obtain rfl := Option.some.inj hw
      exact hf d
    · rw [if_neg hn] at hw
      exact hacc w hw

theorem running_initState (config : RaceConfig) (name : String)
    (s : DriverState) (h : (initState config).lookup name = some s) :
    s.running = true := by
  refine @lookup_foldl_dictInsert_values _ (fun w => w.running = true)
    initDriver config.drivers [] name s ?_ ?_ h
  · intro w hw
    exact Option.noConfusion hw
  · intro d
    rfl

theorem total_time_initState (config : RaceConfig) (name : String)
    (s : DriverState) (h : (initState config).lookup name = some s) :
    s.total_time = 0 := by
  refine @lookup_foldl_dictInsert_values _ (fun w => w.total_time = 0)
    initDriver config.drivers [] name s ?_ ?_ h
  · intro w hw
    exact Option.noConfusion hw
  · intro d
    rfl

theorem getSt_initState_running (config : RaceConfig) (name : String)
    (h : name ∈ rosterNames config) :
    (getSt (initState config) name).running = true := by
  have hmem := mem_keys_initState config name h
  rw [← lookup_isSome_iff] at hmem
  obtain ⟨s, hs⟩ := Option.isSome_iff_exists.mp hmem
  rw [getSt_eq_of_lookup _ _ _ hs]
  exact running_initState config name s hs

theorem initOrder_perm (config : RaceConfig) :
    (initOrder config).Perm (rosterNames config) :=
  List.perm_insertionSort _ _

/-! ### Classification pass lemmas -/

theorem mem_finishRows (st : StMap) (l : List String) (pos : Nat)
    (row : ClassRow) (h : row ∈ finishRows st l pos) :
    row.status = "Finished" ∧ (getSt st row.driver).running = true ∧
      row.driver ∈ l ∧ row.total_time = (getSt st row.driver).total_time ∧
      (row.pos).isSome = true := by
  induction l generalizing pos with
  | nil => exact absurd h (List.not_mem_nil row)
  | cons n t ih =>
    unfold finishRows at h
    by_cases hr : (getSt st n).running = true
    · rw [if_pos hr] at h
      rcases List.mem_cons.mp h with h1 | h1
      · subst h1
        exact ⟨rfl, hr, List.mem_cons_self n t, rfl, rfl⟩
      · obtain ⟨a, b, c, d, e⟩ := ih _ h1
        exact ⟨a, b, List.mem_cons_of_mem n c, d, e⟩
    · rw [if_neg hr] at h
      obtain ⟨a, b, c, d, e⟩ := ih _ h
      exact ⟨a, b, List.mem_cons_of_mem n c, d, e⟩

theorem mem_dnfRows (st : StMap) (order : List String) (row : ClassRow)
    (h : row ∈ dnfRows st order) :
    row.status = "DNF" ∧ row.pos = none ∧
      (getSt st row.driver).running = false ∧ row.driver ∈ order ∧
      row.total_time = (getSt st row.driver).total_time := by
  unfold dnfRows at h
  obtain ⟨n, hn, hrow⟩ := List.mem_map.mp h
  rw [List.mem_filter] at hn
  subst hrow
  refine ⟨rfl, rfl, ?_, hn.1, rfl⟩
  have := hn.2
  simp only [Bool.not_eq_true'] at this
  exact this

theorem dnfRows_nil_of_all_running (st : StMap) (order : List String)
    (h : ∀ n ∈ order, (getSt st n).running = true) :
    dnfRows st order = [] := by
  unfold dnfRows
  rw [List.filter_eq_nil_iff.mpr (by
    intro n hn
    rw [h n hn]
    simp)]
  rfl

/-! ### Claim C3 counterexample -/

/-- Claim C3 counterexample: a configuration with duplicate grid positions
and a pit event at lap 5 outside [1, 1] is not rejected: no error is
raised at construction or at all, the lap loop executes its one lap, and a
full result is produced — so the claimed ConfigurationError detection does
not exist in the code. -/
theorem c3_counterexample :
    (simulate 5 (constPred 90 5) [] cfgC3).isSome = true ∧
    (simulate 5 (constPred 90 5) [] cfgC3).map
      (fun r => (r.timeline.length, r.classification.length)) =
        some (1, 2) := by
  constructor
  · with_unfolding_all decide
  · with_unfolding_all decide

/-! ### Claim C3 amended: what actually happens instead of validation -/

theorem simulate_total_laps_zero (maxLen : Nat)
    (predict : List Step → List ℚ) (table : List (String × ℚ))
    (config : RaceConfig) (h : config.total_laps = 0) :
    simulate maxLen predict table config =
      some { classification :=
               finishRows (initState config) (initOrder config) 1 ++
                 dnfRows (initState config) (initOrder config),
             timeline := [],
             pit_loss_used := pitLossUsed table config } := by
  unfold simulate
  rw [h]
  rfl

theorem willPit_strategy_middle (config : RaceConfig) (name : String)
    (l1 l2 : List PitEvent) (ev : PitEvent)
    (rest : List (String × List PitEvent)) (n : String) (lap : Nat)
    (hlap : (ev.lap == lap) = false) :
    willPit { config with strategy := (name, l1 ++ ev :: l2) :: rest } n
        lap =
      willPit { config with strategy := (name, l1 ++ l2) :: rest } n
        lap := by
  unfold willPit strategyFor
  by_cases hn : n = name
  · subst hn
    rw [show ({ config with strategy := (n, l1 ++ ev :: l2) :: rest } :
        RaceConfig).strategy = (n, l1 ++ ev :: l2) :: rest from rfl,
      show ({ config with strategy := (n, l1 ++ l2) :: rest } :
        RaceConfig).strategy = (n, l1 ++ l2) :: rest from rfl,
      lookup_cons_eq, lookup_cons_eq]
    show (l1 ++ ev :: l2).any (fun e => e.lap == lap) =
      (l1 ++ l2).any (fun e => e.lap == lap)
    rw [List.any_append, List.any_append, List.any_cons, hlap]
    rw [Bool.false_or]
  · rw [show ({ config with strategy := (name, l1 ++ ev :: l2) :: rest } :
        RaceConfig).strategy = (name, l1 ++ ev :: l2) :: rest from rfl,
      show ({ config with strategy := (name, l1 ++ l2) :: rest } :
        RaceConfig).strategy = (name, l1 ++ l2) :: rest from rfl,
      lookup_cons_ne _ _ _ _ hn, lookup_cons_ne _ _ _ _ hn]

theorem pitTarget_strategy_middle (config : RaceConfig) (name : String)
    (l1 l2 : List PitEvent) (ev : PitEvent)
    (rest : List (String × List PitEvent)) (n : String) (lap : Nat)
    (hlap : (ev.lap == lap) = false) :
    pitTarget { config with strategy := (name, l1 ++ ev :: l2) :: rest } n
        lap =
      pitTarget { config with strategy := (name, l1 ++ l2) :: rest } n
        lap := by
  unfold pitTarget strategyFor
  by_cases hn : n = name
  · subst hn
    rw [show ({ config with strategy := (n, l1 ++ ev :: l2) :: rest } :
        RaceConfig).strategy = (n, l1 ++ ev :: l2) :: rest from rfl,
      show ({ config with strategy := (n, l1 ++ l2) :: rest } :
        RaceConfig).strategy = (n, l1 ++ l2) :: rest from rfl,
      lookup_cons_eq, lookup_cons_eq]
    show ((((l1 ++ ev :: l2).filter fun e => e.lap == lap).map
      (·.compound)).head? : Option String) =
      (((l1 ++ l2).filter fun e => e.lap == lap).map (·.compound)).head?
    rw [List.filter_append, List.filter_append, List.filter_cons, hlap]
    rfl
  · rw [show ({ config with strategy := (name, l1 ++ ev :: l2) :: rest } :
        RaceConfig).strategy = (name, l1 ++ ev :: l2) :: rest from rfl,
      show ({ config with strategy := (name, l1 ++ l2) :: rest } :
        RaceConfig).strategy = (name, l1 ++ l2) :: rest from rfl,
      lookup_cons_ne _ _ _ _ hn, lookup_cons_ne _ _ _ _ hn]

theorem runLap_strategy_middle (maxLen : Nat)
    (predict : List Step → List ℚ) (pit_loss : ℚ) (config : RaceConfig)
    (name : String) (l1 l2 : List PitEvent) (ev : PitEvent)
    (rest : List (String × List PitEvent)) (lap : Nat) (es : EngineState)
    (hlap : (ev.lap == lap) = false) :
    runLap maxLen predict pit_loss
        { config with strategy := (name, l1 ++ ev :: l2) :: rest } lap es =
      runLap maxLen predict pit_loss
        { config with strategy := (name, l1 ++ l2) :: rest } lap es := by
  have hwp : ∀ n, willPit
      { config with strategy := (name, l1 ++ ev :: l2) :: rest } n lap =
      willPit { config with strategy := (name, l1 ++ l2) :: rest } n lap :=
    fun n => willPit_strategy_middle config name l1 l2 ev rest n lap hlap
  have hpt : ∀ n, pitTarget
      { config with strategy := (name, l1 ++ ev :: l2) :: rest } n lap =
      pitTarget { config with strategy := (name, l1 ++ l2) :: rest } n
        lap :=
    fun n => pitTarget_strategy_middle config name l1 l2 ev rest n lap hlap
  have hltf : ∀ sc st hist n, lapTimeFor predict pit_loss
      { config with strategy := (name, l1 ++ ev :: l2) :: rest } lap sc st
        hist n =
      lapTimeFor predict pit_loss
        { config with strategy := (name, l1 ++ l2) :: rest } lap sc st
          hist n := by
    intro sc st hist n
    unfold lapTimeFor
    simp only [hwp n]
    exact rfl
  have hclt : ∀ sc st hist order, computeLapTimes predict pit_loss
      { config with strategy := (name, l1 ++ ev :: l2) :: rest } lap sc st
        hist order =
      computeLapTimes predict pit_loss
        { config with strategy := (name, l1 ++ l2) :: rest } lap sc st
          hist order := by
    intro sc st hist order
    unfold computeLapTimes
    congr 1
    funext acc n
    rw [hltf sc st hist n]
  have hty : ∀ order st, applyTyres
      { config with strategy := (name, l1 ++ ev :: l2) :: rest } lap order
        st =
      applyTyres { config with strategy := (name, l1 ++ l2) :: rest } lap
        order st := by
    intro order st
    unfold applyTyres
    congr 1
    funext acc n
    rw [hwp n, hpt n]
  have hls : ∀ lt, lapState
      { config with strategy := (name, l1 ++ ev :: l2) :: rest } lap es
        lt =
      lapState { config with strategy := (name, l1 ++ l2) :: rest } lap es
        lt := by
    intro lt
    unfold lapState
    rw [hty es.order]
  unfold runLap
  rw [hclt]
  simp only [hls]
  exact rfl

theorem simLoop_strategy_middle (maxLen : Nat)
    (predict : List Step → List ℚ) (pit_loss : ℚ) (config : RaceConfig)
    (name : String) (l1 l2 : List PitEvent) (ev : PitEvent)
    (rest : List (String × List PitEvent)) (laps : List Nat)
    (acc : EngineState × List TimelineEntry)
    (hlaps : ∀ lap ∈ laps, (ev.lap == lap) = false) :
    simLoop maxLen predict pit_loss
        { config with strategy := (name, l1 ++ ev :: l2) :: rest } laps
        acc =
      simLoop maxLen predict pit_loss
        { config with strategy := (name, l1 ++ l2) :: rest } laps acc := by
  induction laps generalizing acc with
  | nil => rfl
  | cons lap t ih =>
    rw [simLoop_cons, simLoop_cons]
    unfold simStep
    rw [runLap_strategy_middle maxLen predict pit_loss config name l1 l2
      ev rest lap acc.1 (hlaps lap (List.mem_cons_self lap t))]
    cases h : runLap maxLen predict pit_loss
        { config with strategy := (name, l1 ++ l2) :: rest } lap acc.1 with
    | none => rfl
    | some out =>
      show (simLoop _ _ _ _ t (out.1, acc.2 ++ [out.2])) = _
      exact ih (out.1, acc.2 ++ [out.2])
        (fun l hl => hlaps l (List.mem_cons_of_mem lap hl))

/-- Claim C3 as amended: no configuration validation exists.  A config
with total_laps = 0 (total_laps < 1) is accepted and the simulation still
returns a result, with an empty timeline and every driver classified as
Finished; and a pit event whose lap lies outside [1, total_laps] never
fires: removing it from the strategy leaves the simulation result
unchanged.  (Duplicate grid positions are likewise accepted, see the
counterexample.) -/
theorem c3_no_validation :
    (∀ (maxLen : Nat) (predict : List Step → List ℚ)
        (table : List (String × ℚ)) (config : RaceConfig),
      config.total_laps = 0 →
      (simulate maxLen predict table config).map
          (fun r => (r.timeline,
            r.classification.all fun row => row.status == "Finished")) =
        some ([], true)) ∧
    (∀ (maxLen : Nat) (predict : List Step → List ℚ)
        (table : List (String × ℚ)) (config : RaceConfig) (name : String)
        (l1 l2 : List PitEvent) (ev : PitEvent)
        (rest : List (String × List PitEvent)),
      ev.lap = 0 ∨ config.total_laps < ev.lap →
      simulate maxLen predict table
          { config with strategy := (name, l1 ++ ev :: l2) :: rest } =
        simulate maxLen predict table
          { config with strategy := (name, l1 ++ l2) :: rest }) := by
  constructor
  · intro maxLen predict table config h
    rw [simulate_total_laps_zero maxLen predict table config h]
    have hd : dnfRows (initState config) (initOrder config) = [] := by
      refine dnfRows_nil_of_all_running _ _ ?_
      intro n hn
      exact getSt_initState_running config n
        ((initOrder_perm config).mem_iff.mp hn)
    show some (([] : List TimelineEntry),
      (finishRows (initState config) (initOrder config) 1 ++
        dnfRows (initState config) (initOrder config)).all
          fun row => row.status == "Finished") = some ([], true)
    rw [hd, List.append_nil]
    have hall : (finishRows (initState config) (initOrder config) 1).all
        (fun row => row.status == "Finished") = true := by
      rw [List.all_eq_true]
      intro row hrow
      rw [(mem_finishRows _ _ _ row hrow).1]
      rfl
    rw [hall]
  · intro maxLen predict table config name l1 l2 ev rest hev
    unfold simulate
    rw [simLoop_strategy_middle maxLen predict _ config name l1 l2 ev rest
      _ _ (by
        intro lap hlap
        rw [List.mem_range'_1] at hlap
        rw [beq_eq_false_iff_ne]
        rcases hev with h | h
        · omega
        · show ¬ ev.lap = lap
          have h2 : lap < 1 + config.total_laps := hlap.2
          omega)]
    exact rfl

/-- Witness for C3 as amended: a zero-lap race returns an all-Finished
result, and removing the out-of-range pit event of cfgC3 changes
nothing. -/
theorem c3_witness :
    (simulate 5 (constPred 90 5) [] { cfgC3 with total_laps := 0 }).map
        (fun r => (r.timeline,
          r.classification.all fun row => row.status == "Finished")) =
      some ([], true) ∧
    simulate 5 (constPred 90 5) [] cfgC3 =
      simulate 5 (constPred 90 5) []
        { cfgC3 with strategy := [("A", [])] } := by
  constructor
  · exact (c3_no_validation).1 5 (constPred 90 5) []
      { cfgC3 with total_laps := 0 } rfl
  · exact (c3_no_validation).2 5 (constPred 90 5) [] cfgC3 "A" [] []
      ⟨5, "Y"⟩ [] (Or.inr (by with_unfolding_all decide))

/-! ### Retirement bookkeeping lemmas -/

theorem pairwise_of_forall_mem {R : α → α → Prop} (l : List α)
    (h : ∀ a ∈ l, ∀ b ∈ l, R a b) : l.Pairwise R := by
  induction l with
  | nil => exact List.Pairwise.nil
  | cons x t ih =>
    refine List.Pairwise.cons ?_ (ih ?_)
    · intro b hb
      exact h x (List.mem_cons_self x t) b (List.mem_cons_of_mem x hb)
    · intro a ha b hb
      exact h a (List.mem_cons_of_mem x ha) b (List.mem_cons_of_mem x hb)

theorem retiredBy_mono (config : RaceConfig) (m n : Nat) (name : String)
    (hmn : m ≤ n) (h : retiredBy config m name) :
    retiredBy config n name := by
  obtain ⟨p, hp, h1, h2, h3⟩ := h
  exact ⟨p, hp, h1, h2, le_trans h3 hmn⟩

theorem fires_iff (dnfs : List (String × Nat)) (lap : Nat) (name : String) :
    fires dnfs lap name = true ↔ ∃ p ∈ dnfs, p.1 = name ∧ p.2 = lap := by
  unfold fires
  rw [List.any_eq_true]
  constructor
  · rintro ⟨p, hp, hc⟩
    rw [Bool.and_eq_true, beq_iff_eq, beq_iff_eq] at hc
    exact ⟨p, hp, hc.1, hc.2⟩
  · rintro ⟨p, hp, h1, h2⟩
    refine ⟨p, hp, ?_⟩
    rw [Bool.and_eq_true, beq_iff_eq, beq_iff_eq]
    exact ⟨h1, h2⟩

theorem retiredBy_succ_iff (config : RaceConfig) (n : Nat) (name : String) :
    retiredBy config (n + 1) name ↔
      retiredBy config n name ∨ fires config.dnfs (n + 1) name = true := by
  constructor
  · rintro ⟨p, hp, h1, h2, h3⟩
    by_cases hc : p.2 ≤ n
    · exact Or.inl ⟨p, hp, h1, h2, hc⟩
    · have hpn : p.2 = n + 1 := by omega
      exact Or.inr ((fires_iff _ _ _).mpr ⟨p, hp, h1, hpn⟩)
  · rintro (h | h)
    · exact retiredBy_mono config n (n + 1) name (by omega) h
    · obtain ⟨p, hp, h1, h2⟩ := (fires_iff _ _ _).mp h
      exact ⟨p, hp, h1, by omega, by omega⟩

theorem mem_retirement_candidates (config : RaceConfig) (name : String)
    (p : String × Nat) (hp : p ∈ config.dnfs) (h1 : p.1 = name)
    (h2 : 1 ≤ p.2) :
    p.2 ∈ (config.dnfs.filter fun q =>
      q.1 == name && !(q.2 == 0)).map (·.2) := by
  refine List.mem_map_of_mem (fun (q : String × Nat) => q.2) ?_
  rw [List.mem_filter]
  refine ⟨hp, ?_⟩
  rw [Bool.and_eq_true, beq_iff_eq]
  refine ⟨h1, ?_⟩
  have hz : (p.2 == 0) = false := by
    rw [beq_eq_false_iff_ne]
    omega
  rw [hz]
  rfl

theorem retiredBy_iff_retirementLap (config : RaceConfig) (k : Nat)
    (name : String) :
    retiredBy config k name ↔
      ∃ l, retirementLap config name = some l ∧ l ≤ k := by
  constructor
  · rintro ⟨p, hp, h1, h2, h3⟩
    have hmem := mem_retirement_candidates config name p hp h1 h2
    have hsome := List.isSome_min?_of_mem hmem
    obtain ⟨m, hm⟩ := Option.isSome_iff_exists.mp hsome
    have hm2 := hm
    rw [List.min?_eq_some_iff'] at hm2
    refine ⟨m, ?_, le_trans (hm2.2 p.2 hmem) h3⟩
    unfold retirementLap
    exact hm
  · rintro ⟨l, hl, hlk⟩
    unfold retirementLap at hl
    rw [List.min?_eq_some_iff'] at hl
    obtain ⟨q, hq, hq2⟩ := List.mem_map.mp hl.1
    rw [List.mem_filter] at hq
    have hqc := hq.2
    rw [Bool.and_eq_true, beq_iff_eq] at hqc
    have hq0 : 1 ≤ q.2 := by
      have h2 := hqc.2
      cases hz : (q.2 == 0) with
      | false =>
        have := beq_eq_false_iff_ne.mp hz
        omega
      | true =>
        rw [hz] at h2
        exact absurd h2 (by simp)
    exact ⟨q, hq.1, hqc.1, hq0, by omega⟩

theorem retirementLap_of_new (config : RaceConfig) (n : Nat)
    (name : String) (h1 : ¬retiredBy config n name)
    (h2 : retiredBy config (n + 1) name) :
    retirementLap config name = some (n + 1) := by
  obtain ⟨l, hl, hlk⟩ :=
    (retiredBy_iff_retirementLap config (n + 1) name).mp h2
  have hnot : ¬(l ≤ n) := fun hle =>
    h1 ((retiredBy_iff_retirementLap config n name).mpr ⟨l, hl, hle⟩)
  have heq : l = n + 1 := by omega
  exact heq ▸ hl

/-! ### Invariant: base case -/

theorem getSt_initState_total (config : RaceConfig) (name : String) :
    (getSt (initState config) name).total_time = 0 := by
  cases h : (initState config).lookup name with
  | none =>
    rw [getSt_of_lookup_none _ _ h]
    rfl
  | some s =>
    rw [getSt_eq_of_lookup _ _ _ h]
    exact total_time_initState config name s h

theorem simInv_base (config : RaceConfig)
    (hnd : (rosterNames config).Nodup) :
    SimInv config 0 (initEngine config) [] := by
  have hall : ∀ m ∈ (initEngine config).order,
      ((getSt (initEngine config).state m).running : Bool) = true :=
    fun m hm => getSt_initState_running config m
      ((initOrder_perm config).mem_iff.mp hm)
  have hnone : ∀ m ∈ (initEngine config).order,
      (!(getSt (initEngine config).state m).running) = false := by
    intro m hm
    rw [hall m hm]
    rfl
  have hnil : ((initEngine config).order.filter fun m =>
      !(getSt (initEngine config).state m).running) = [] := by
    rw [List.filter_eq_nil_iff]
    intro m hm
    rw [hnone m hm]
    simp
  refine ⟨keys_initState config hnd, initOrder_perm config, ?_, ?_, ?_,
    ?_, ?_, ?_, ?_, ?_⟩
  · intro name hname
    constructor
    · intro h
      have h2 : (getSt (initState config) name).running = false := h
      rw [getSt_initState_running config name hname] at h2
      exact absurd h2 (by simp)
    · rintro ⟨p, hp, h1, h2, h3⟩
      omega
  · intro name
    show (getSt (initState config) name).total_time = timelineSum [] name
    rw [getSt_initState_total config name]
    rfl
  · intro e he
    exact absurd he (List.not_mem_nil e)
  · intro e he
    exact absurd he (List.not_mem_nil e)
  · rw [List.filter_eq_self.mpr hall, hnil, List.append_nil]
  · refine pairwise_of_forall_mem _ ?_
    intro a ha b hb
    show (getSt (initEngine config).state a).total_time ≤
      (getSt (initEngine config).state b).total_time
    rw [show (getSt (initEngine config).state a).total_time =
        (getSt (initState config) a).total_time from rfl,
      show (getSt (initEngine config).state b).total_time =
        (getSt (initState config) b).total_time from rfl,
      getSt_initState_total config a, getSt_initState_total config b]
  · rw [hnil]
    intro name hname
    exact absurd hname (List.not_mem_nil name)
  · rw [hnil]
    exact List.Pairwise.nil

/-! ### Invariant: per-lap facts -/

theorem reorder_fst (st : StMap) (o : List String) :
    (reorder st o).1 = List.insertionSort (timeLE st)
      (o.filter fun m => (getSt st m).running) := rfl

theorem reorder_snd (st : StMap) (o : List String) :
    (reorder st o).2 = o.filter fun m => !(getSt st m).running := rfl

theorem running_out_eq_st1 (maxLen : Nat) (predict : List Step → List ℚ)
    (pit_loss : ℚ) (config : RaceConfig) (lap : Nat) (es : EngineState)
    (out : EngineState × TimelineEntry)
    (hout : runLap maxLen predict pit_loss config lap es = some out)
    (name : String) :
    (getSt out.1.state name).running =
      (getSt (applyDnfs config.dnfs lap es.state) name).running := by
  obtain ⟨-, hstate, -, -, -, -, -⟩ :=
    runLap_some maxLen predict pit_loss config lap es out hout
  rw [hstate]
  unfold lapState
  exact (proj_getSt_eq (·.running) _ _ name
    (running_applyTyres config lap es.order _ name)).trans
    (proj_getSt_eq (·.running) _ _ name
      (running_applyTotals out.2.lap_times _ name))

theorem lap_times_lookup_char (maxLen : Nat) (predict : List Step → List ℚ)
    (pit_loss : ℚ) (config : RaceConfig) (lap : Nat) (es : EngineState)
    (out : EngineState × TimelineEntry)
    (hout : runLap maxLen predict pit_loss config lap es = some out)
    (name : String) :
    out.2.lap_times.lookup name =
      if name ∈ es.order ∧
          (getSt (applyDnfs config.dnfs lap es.state) name).running = true
        then lapTimeFor predict pit_loss config lap
          (isSc lap config.safety_cars) (applyDnfs config.dnfs lap es.state)
          es.history name
      else none := by
  obtain ⟨hct, -, -, -, -, -, -⟩ :=
    runLap_some maxLen predict pit_loss config lap es out hout
  rw [computeLapTimes_eq_aux] at hct
  have h := lookup_lapTimesAux predict pit_loss config lap
    (isSc lap config.safety_cars) (applyDnfs config.dnfs lap es.state)
    es.history es.order [] out.2.lap_times name hct
  rwa [List.lookup_nil] at h

theorem keysNodup_lap_times (maxLen : Nat) (predict : List Step → List ℚ)
    (pit_loss : ℚ) (config : RaceConfig) (lap : Nat) (es : EngineState)
    (out : EngineState × TimelineEntry)
    (hout : runLap maxLen predict pit_loss config lap es = some out) :
    keysNodup out.2.lap_times := by
  obtain ⟨hct, -, -, -, -, -, -⟩ :=
    runLap_some maxLen predict pit_loss config lap es out hout
  rw [computeLapTimes_eq_aux] at hct
  exact keysNodup_lapTimesAux _ _ _ _ _ _ _ _ _ _ keysNodup_nil hct

theorem total_time_out (maxLen : Nat) (predict : List Step → List ℚ)
    (pit_loss : ℚ) (config : RaceConfig) (lap : Nat) (es : EngineState)
    (out : EngineState × TimelineEntry)
    (hout : runLap maxLen predict pit_loss config lap es = some out)
    (name : String) :
    (getSt out.1.state name).total_time =
      (getSt es.state name).total_time +
        (out.2.lap_times.lookup name).getD 0 := by
  obtain ⟨hct, hstate, -, -, -, -, -⟩ :=
    runLap_some maxLen predict pit_loss config lap es out hout
  have hndlt := keysNodup_lap_times maxLen predict pit_loss config lap es
    out hout
  have hchar := lap_times_lookup_char maxLen predict pit_loss config lap es
    out hout name
  have e1 : (getSt out.1.state name).total_time =
      (getSt (applyTotals out.2.lap_times
        (applyDnfs config.dnfs lap es.state)) name).total_time := by
    rw [hstate]
    unfold lapState
    exact proj_getSt_eq (·.total_time) _ _ name
      (total_time_applyTyres config lap es.order _ name)
  have e2 : (getSt (applyDnfs config.dnfs lap es.state) name).total_time =
      (getSt es.state name).total_time :=
    proj_getSt_eq (·.total_time) es.state _ name
      (total_time_applyDnfs config.dnfs lap es.state name)
  cases hl1 : (applyDnfs config.dnfs lap es.state).lookup name with
  | none =>
    have hrf : (getSt (applyDnfs config.dnfs lap es.state) name).running =
        false := by
      rw [getSt_of_lookup_none _ _ hl1]
      rfl
    have hltn : out.2.lap_times.lookup name = none := by
      rw [hchar, if_neg]
      intro hh
      rw [hrf] at hh
      exact Bool.false_ne_true hh.2
    have hesn : es.state.lookup name = none := by
      rw [lookup_applyDnfs] at hl1
      exact Option.map_eq_none'.mp hl1
    rw [e1, hltn]
    unfold getSt
    rw [lookup_applyTotals _ _ _ hndlt, hl1, hesn]
    show (default : DriverState).total_time =
      (default : DriverState).total_time + (none : Option ℚ).getD 0
    norm_num
  | some s =>
    have e3 := total_time_after_applyTotals out.2.lap_times
      (applyDnfs config.dnfs lap es.state) name hndlt
      (Or.inr (by rw [hl1]; rfl))
    rw [e1, e3, e2]

theorem timelineSum_append_single (tl : List TimelineEntry)
    (e : TimelineEntry) (name : String) :
    timelineSum (tl ++ [e]) name =
      timelineSum tl name + (e.lap_times.lookup name).getD 0 := by
  unfold timelineSum
  rw [List.map_append, List.sum_append]
  simp

/-- One lap of the engine preserves the simulation invariant. -/
theorem simInv_step (maxLen : Nat) (predict : List Step → List ℚ)
    (pit_loss : ℚ) (config : RaceConfig) (n : Nat) (es : EngineState)
    (tl : List TimelineEntry) (out : EngineState × TimelineEntry)
    (hinv : SimInv config n es tl)
    (hout : runLap maxLen predict pit_loss config (n + 1) es = some out) :
    SimInv config (n + 1) out.1 (tl ++ [out.2]) := by
  obtain ⟨hct, hstate, hhist, horder, hlap, hord2, hsc⟩ :=
    runLap_some maxLen predict pit_loss config (n + 1) es out hout
  have hrun3 := running_out_eq_st1 maxLen predict pit_loss config (n + 1)
    es out hout
  have hrunIff : ∀ name ∈ rosterNames config,
      ((getSt out.1.state name).running = false ↔
        retiredBy config (n + 1) name) := by
    intro name hname
    rw [hrun3 name, getSt_applyDnfs]
    by_cases hf : fires config.dnfs (n + 1) name = true
    · rw [if_pos hf]
      constructor
      · intro _
        exact (retiredBy_succ_iff config n name).mpr (Or.inr hf)
      · intro _
        rfl
    · rw [if_neg hf]
      rw [hinv.running_iff name hname, retiredBy_succ_iff]
      constructor
      · exact fun h => Or.inl h
      · rintro (h | h)
        · exact h
        · exact absurd h hf
  have hmono : ∀ m, (getSt es.state m).running = false →
      (getSt out.1.state m).running = false := by
    intro m h
    rw [hrun3 m, getSt_applyDnfs]
    by_cases hf : fires config.dnfs (n + 1) m = true
    · rw [if_pos hf]
    · rw [if_neg hf]
      exact h
  have hchar := lap_times_lookup_char maxLen predict pit_loss config (n + 1)
    es out hout
  have htot := total_time_out maxLen predict pit_loss config (n + 1) es
    out hout
  have hkeys : out.1.state.map (·.1) = rosterNames config := by
    rw [hstate, keys_lapState]
    exact hinv.keys_state
  have hop : out.1.order.Perm (rosterNames config) := by
    rw [horder, reorder_fst, reorder_snd]
    refine List.Perm.trans ?_ hinv.order_perm
    refine List.Perm.trans
      (List.Perm.append_right _
        (List.perm_insertionSort (timeLE out.1.state) _)) ?_
    exact List.filter_append_perm _ es.order
  have htl : ∀ name, (getSt out.1.state name).total_time =
      timelineSum (tl ++ [out.2]) name := by
    intro name
    rw [htot name, hinv.total_eq name, timelineSum_append_single]
  have hent1 : ∀ e ∈ tl ++ [out.2], 1 ≤ e.lap ∧ e.lap ≤ n + 1 := by
    intro e he
    rcases List.mem_append.mp he with h | h
    · have := hinv.entries_lap e h
      omega
    · have heq : e = out.2 := List.mem_singleton.mp h
      subst heq
      rw [hlap]
      omega
  have hent2 : ∀ e ∈ tl ++ [out.2], ∀ name v,
      e.lap_times.lookup name = some v → ¬retiredBy config e.lap name := by
    intro e he name v hv
    rcases List.mem_append.mp he with h | h
    · exact hinv.entries_run e h name v hv
    · have heq : e = out.2 := List.mem_singleton.mp h
      subst heq
      rw [hlap]
      intro hret
      rw [hchar name] at hv
      by_cases hc : name ∈ es.order ∧
          (getSt (applyDnfs config.dnfs (n + 1) es.state) name).running =
            true
      · have hmem : name ∈ rosterNames config :=
          hinv.order_perm.mem_iff.mp hc.1
        have hro : (getSt out.1.state name).running = true := by
          rw [hrun3 name]
          exact hc.2
        have hfalse := (hrunIff name hmem).mpr hret
        rw [hro] at hfalse
        exact absurd hfalse (by simp)
      · rw [if_neg hc] at hv
        exact Option.noConfusion hv
  have hmemrs : ∀ m ∈ (reorder out.1.state es.order).1,
      (getSt out.1.state m).running = true := by
    intro m hm
    rw [reorder_fst] at hm
    have hm2 := (List.perm_insertionSort (timeLE out.1.state) _).mem_iff.mp hm
    exact (List.mem_filter.mp hm2).2
  have hmemds : ∀ m ∈ (reorder out.1.state es.order).2,
      (getSt out.1.state m).running = false := by
    intro m hm
    rw [reorder_snd] at hm
    have hb := (List.mem_filter.mp hm).2
    cases h : (getSt out.1.state m).running
    · rfl
    · rw [h] at hb
      exact absurd hb (by simp)
  have hsplitA : out.1.order.filter
      (fun m => (getSt out.1.state m).running) =
      (reorder out.1.state es.order).1 := by
    have h1 : (reorder out.1.state es.order).1.filter
        (fun m => (getSt out.1.state m).running) =
        (reorder out.1.state es.order).1 :=
      List.filter_eq_self.mpr hmemrs
    have h2 : (reorder out.1.state es.order).2.filter
        (fun m => (getSt out.1.state m).running) = [] := by
      rw [List.filter_eq_nil_iff]
      intro m hm
      rw [hmemds m hm]
      exact Bool.false_ne_true
    rw [horder, List.filter_append, h1, h2, List.append_nil]
  have hsplitB : out.1.order.filter
      (fun m => !(getSt out.1.state m).running) =
      (reorder out.1.state es.order).2 := by
    have h1 : (reorder out.1.state es.order).1.filter
        (fun m => !(getSt out.1.state m).running) = [] := by
      rw [List.filter_eq_nil_iff]
      intro m hm
      rw [hmemrs m hm]
      simp
    have h2 : (reorder out.1.state es.order).2.filter
        (fun m => !(getSt out.1.state m).running) =
        (reorder out.1.state es.order).2 := by
      rw [List.filter_eq_self]
      intro m hm
      rw [hmemds m hm]
      rfl
    rw [horder, List.filter_append, h1, h2, List.nil_append]
  have hos : out.1.order =
      (out.1.order.filter fun m => (getSt out.1.state m).running) ++
        (out.1.order.filter fun m => !(getSt out.1.state m).running) := by
    rw [hsplitA, hsplitB]
    exact horder
  have hrs : (out.1.order.filter fun m =>
      (getSt out.1.state m).running).Pairwise (timeLE out.1.state) := by
    rw [hsplitA, reorder_fst]
    exact List.sorted_insertionSort (timeLE out.1.state) _
  have hret1 : ∀ name ∈ out.1.order.filter
      (fun m => !(getSt out.1.state m).running),
      ∃ l, retirementLap config name = some l ∧ l ≤ n + 1 := by
    intro name hname
    rw [hsplitB] at hname
    have hrf : (getSt out.1.state name).running = false :=
      hmemds name hname
    have hmem0 : name ∈ es.order := by
      rw [reorder_snd] at hname
      exact (List.mem_filter.mp hname).1
    have hmem : name ∈ rosterNames config :=
      hinv.order_perm.mem_iff.mp hmem0
    have hret := (hrunIff name hmem).mp hrf
    exact (retiredBy_iff_retirementLap config (n + 1) name).mp hret
  have hES := hinv.order_split
  have hds : (reorder out.1.state es.order).2 =
      ((es.order.filter fun m => (getSt es.state m).running).filter
        fun m => !(getSt out.1.state m).running) ++
        ((es.order.filter fun m => !(getSt es.state m).running).filter
          fun m => !(getSt out.1.state m).running) := by
    rw [reorder_snd]
    conv_lhs => rw [hES]
    rw [List.filter_append]
  have hBf : ((es.order.filter fun m =>
      !(getSt es.state m).running).filter
        fun m => !(getSt out.1.state m).running) =
      es.order.filter fun m => !(getSt es.state m).running := by
    rw [List.filter_eq_self]
    intro m hm
    have h0 : (getSt es.state m).running = false := by
      have hb := (List.mem_filter.mp hm).2
      cases h : (getSt es.state m).running
      · rfl
      · rw [h] at hb
        exact absurd hb (by simp)
    rw [hmono m h0]
    rfl
  have hAf : ∀ m ∈ ((es.order.filter fun m =>
      (getSt es.state m).running).filter
        fun m => !(getSt out.1.state m).running),
      retirementLap config m = some (n + 1) := by
    intro m hm
    have hm1 := List.mem_filter.mp hm
    have hm2 := List.mem_filter.mp hm1.1
    have hmem : m ∈ rosterNames config :=
      hinv.order_perm.mem_iff.mp hm2.1
    have hrold : (getSt es.state m).running = true := hm2.2
    have hrnew : (getSt out.1.state m).running = false := by
      have hb := hm1.2
      cases h : (getSt out.1.state m).running
      · rfl
      · rw [h] at hb
        exact absurd hb (by simp)
    have hnot : ¬retiredBy config n m := by
      intro hr
      have hfalse := (hinv.running_iff m hmem).mpr hr
      rw [hrold] at hfalse
      exact absurd hfalse (by simp)
    have hyes : retiredBy config (n + 1) m := (hrunIff m hmem).mp hrnew
    exact retirementLap_of_new config n m hnot hyes
  have hret2 : ((out.1.order.filter fun m =>
      !(getSt out.1.state m).running).map fun m =>
        (retirementLap config m).getD 0).Pairwise (fun a b => b ≤ a) := by
    rw [hsplitB, hds, hBf, List.map_append, List.pairwise_append]
    refine ⟨?_, hinv.ret_sorted, ?_⟩
    · refine pairwise_of_forall_mem _ ?_
      intro a ha b hb
      obtain ⟨ma, hma, rfl⟩ := List.mem_map.mp ha
      obtain ⟨mb, hmb, rfl⟩ := List.mem_map.mp hb
      show (retirementLap config mb).getD 0 ≤ (retirementLap config ma).getD 0
      rw [hAf ma hma, hAf mb hmb]
    · intro a ha b hb
      obtain ⟨ma, hma, rfl⟩ := List.mem_map.mp ha
      obtain ⟨mb, hmb, rfl⟩ := List.mem_map.mp hb
      obtain ⟨l, hl, hln⟩ := hinv.ret_laps mb hmb
      show (retirementLap config mb).getD 0 ≤ (retirementLap config ma).getD 0
      rw [hAf ma hma, hl]
      show l ≤ n + 1
      omega
  exact ⟨hkeys, hop, hrunIff, htl, hent1, hent2, hos, hrs, hret1, hret2⟩

theorem simStep_pair (maxLen : Nat) (predict : List Step → List ℚ)
    (pit_loss : ℚ) (config : RaceConfig) (es : EngineState)
    (tl : List TimelineEntry) (lap : Nat) :
    simStep maxLen predict pit_loss config (es, tl) lap =
      (runLap maxLen predict pit_loss config lap es).map
        (fun out => (out.1, tl ++ [out.2])) := by
  unfold simStep
  cases runLap maxLen predict pit_loss config lap es with
  | none => rfl
  | some out =>
    obtain ⟨a, b⟩ := out
    rfl

/-- The whole lap loop starting after lap n preserves the invariant. -/
theorem simLoop_inv (maxLen : Nat) (predict : List Step → List ℚ)
    (pit_loss : ℚ) (config : RaceConfig) (k : Nat) (n : Nat)
    (es : EngineState) (tl : List TimelineEntry)
    (res : EngineState × List TimelineEntry)
    (hinv : SimInv config n es tl)
    (hrun : simLoop maxLen predict pit_loss config
      (List.range' (n + 1) k) (es, tl) = some res) :
    SimInv config (n + k) res.1 res.2 := by
  induction k generalizing n es tl with
  | zero =>
    have heq : (es, tl) = res := Option.some.inj hrun
    rw [← heq]
    exact hinv
  | succ k ih =>
    have hr : List.range' (n + 1) (k + 1) =
        (n + 1) :: List.range' (n + 2) k := rfl
    rw [hr, simLoop_cons, simStep_pair] at hrun
    cases hrl : runLap maxLen predict pit_loss config (n + 1) es with
    | none =>
      rw [hrl] at hrun
      exact Option.noConfusion hrun
    | some out =>
      rw [hrl] at hrun
      rw [Option.map_some', Option.some_bind] at hrun
      have hinv2 : SimInv config (n + 1) out.1 (tl ++ [out.2]) :=
        simInv_step maxLen predict pit_loss config n es tl out hinv hrl
      have hres := ih (n + 1) out.1 (tl ++ [out.2]) hinv2 hrun
      have harith : n + (k + 1) = n + 1 + k := by omega
      rw [harith]
      exact hres

/-- Eliminating a successful simulate call into the final invariant plus
the shape of the classification. -/
theorem simulate_inv (maxLen : Nat) (predict : List Step → List ℚ)
    (plbc : List (String × ℚ)) (config : RaceConfig) (res : SimResult)
    (hnd : (rosterNames config).Nodup)
    (h : simulate maxLen predict plbc config = some res) :
    ∃ es : EngineState,
      SimInv config config.total_laps es res.timeline ∧
      res.classification =
        finishRows es.state es.order 1 ++ dnfRows es.state es.order := by
  unfold simulate at h
  cases hl : simLoop maxLen predict (pitLossUsed plbc config) config
      (List.range' 1 config.total_laps) (initEngine config, []) with
  | none =>
    rw [hl] at h
    exact Option.noConfusion h
  | some p =>
    rw [hl] at h
    obtain rfl := Option.some.inj h
    refine ⟨p.1, ?_, rfl⟩
    have h2 := simLoop_inv maxLen predict (pitLossUsed plbc config) config
      config.total_laps 0 (initEngine config) [] p
      (simInv_base config hnd) hl
    rw [Nat.zero_add] at h2
    exact h2

theorem finishRows_nil (st : StMap) (pos : Nat) :
    finishRows st [] pos = [] := rfl

theorem finishRows_cons (st : StMap) (n : String) (t : List String)
    (pos : Nat) :
    finishRows st (n :: t) pos =
      if (getSt st n).running then
        { pos := some pos, driver := n, team := (getSt st n).team,
          total_time := (getSt st n).total_time, status := "Finished" } ::
          finishRows st t (pos + 1)
      else finishRows st t pos := rfl

theorem finishRows_map_driver (st : StMap) (l : List String) (pos : Nat)
    (h : ∀ m ∈ l, (getSt st m).running = true) :
    (finishRows st l pos).map (·.driver) = l := by
  induction l generalizing pos with
  | nil => rfl
  | cons n t ih =>
    rw [finishRows_cons, if_pos (h n (List.mem_cons_self n t)),
      List.map_cons,
      ih (pos + 1) (fun m hm => h m (List.mem_cons_of_mem n hm))]

theorem finishRows_map_pos (st : StMap) (l : List String) (pos : Nat)
    (h : ∀ m ∈ l, (getSt st m).running = true) :
    (finishRows st l pos).map (·.pos) =
      (List.range' pos l.length).map some := by
  induction l generalizing pos with
  | nil => rfl
  | cons n t ih =>
    rw [finishRows_cons, if_pos (h n (List.mem_cons_self n t)),
      List.map_cons]
    have hr : List.range' pos (n :: t).length =
        pos :: List.range' (pos + 1) t.length := rfl
    rw [hr, List.map_cons,
      ih (pos + 1) (fun m hm => h m (List.mem_cons_of_mem n hm))]

theorem finishRows_map_total (st : StMap) (l : List String) (pos : Nat)
    (h : ∀ m ∈ l, (getSt st m).running = true) :
    (finishRows st l pos).map (·.total_time) =
      l.map fun m => (getSt st m).total_time := by
  induction l generalizing pos with
  | nil => rfl
  | cons n t ih =>
    rw [finishRows_cons, if_pos (h n (List.mem_cons_self n t)),
      List.map_cons, List.map_cons,
      ih (pos + 1) (fun m hm => h m (List.mem_cons_of_mem n hm))]

theorem finishRows_not_run (st : StMap) (l : List String) (pos : Nat)
    (h : ∀ m ∈ l, (getSt st m).running = false) :
    finishRows st l pos = [] := by
  induction l generalizing pos with
  | nil => rfl
  | cons n t ih =>
    have hne : ¬(getSt st n).running = true := by
      rw [h n (List.mem_cons_self n t)]
      exact Bool.false_ne_true
    rw [finishRows_cons, if_neg hne]
    exact ih pos (fun m hm => h m (List.mem_cons_of_mem n hm))

theorem finishRows_append (st : StMap) (l1 l2 : List String) (pos : Nat)
    (h1 : ∀ m ∈ l1, (getSt st m).running = true) :
    finishRows st (l1 ++ l2) pos =
      finishRows st l1 pos ++ finishRows st l2 (pos + l1.length) := by
  induction l1 generalizing pos with
  | nil => rfl
  | cons n t ih =>
    have hn := h1 n (List.mem_cons_self n t)
    have ht : ∀ m ∈ t, (getSt st m).running = true :=
      fun m hm => h1 m (List.mem_cons_of_mem n hm)
    have hlen : pos + (n :: t).length = pos + 1 + t.length := by
      rw [List.length_cons]
      omega
    rw [List.cons_append, finishRows_cons, finishRows_cons, if_pos hn,
      if_pos hn, ih (pos + 1) ht, hlen, List.cons_append]

theorem dnfRows_eq (st : StMap) (order : List String) :
    dnfRows st order =
      (order.filter fun n => !(getSt st n).running).map fun n =>
        { pos := none, driver := n, team := (getSt st n).team,
          total_time := (getSt st n).total_time, status := "DNF" } := rfl

theorem dnfRows_map_driver (st : StMap) (order : List String) :
    (dnfRows st order).map (·.driver) =
      order.filter fun n => !(getSt st n).running := by
  rw [dnfRows_eq, List.map_map]
  show (order.filter fun n => !(getSt st n).running).map (fun n => n) = _
  rw [List.map_id']

theorem dnfRows_map_retlap (config : RaceConfig) (st : StMap)
    (order : List String) :
    (dnfRows st order).map
        (fun r => (retirementLap config r.driver).getD 0) =
      (order.filter fun n => !(getSt st n).running).map
        fun m => (retirementLap config m).getD 0 := by
  rw [dnfRows_eq, List.map_map]
  rfl

theorem timelineSum_eq_filter (tl : List TimelineEntry) (name : String)
    (p : TimelineEntry → Bool)
    (h : ∀ e ∈ tl, p e = false → e.lap_times.lookup name = none) :
    timelineSum (tl.filter p) name = timelineSum tl name := by
  induction tl with
  | nil => rfl
  | cons e t ih =>
    have ht : ∀ e2 ∈ t, p e2 = false → e2.lap_times.lookup name = none :=
      fun e2 he2 => h e2 (List.mem_cons_of_mem e he2)
    have ihh := ih ht
    unfold timelineSum at ihh ⊢
    rw [List.filter_cons]
    cases hp : p e with
    | true =>
      rw [if_pos rfl, List.map_cons, List.map_cons, List.sum_cons,
        List.sum_cons, ihh]
    | false =>
      rw [if_neg Bool.false_ne_true, List.map_cons,
        List.sum_cons, h e (List.mem_cons_self e t) hp, ihh]
      show (t.map _).sum = 0 + (t.map _).sum
      rw [zero_add]

/-! ### Claim C4 -/

/-- Claim C4: for a driver whose retirement fires at lap n (within the
race), no lap time is recorded for the driver on lap n or any later lap —
every timeline entry from lap n onward omits the driver from its
lap_times — and the final classification contains a row for the driver
with status DNF, no position, and a total_time equal to the time
accumulated over the laps before n (which is also the total over the
whole timeline, since later laps contribute nothing). -/
theorem c4_retirement (maxLen : Nat) (predict : List Step → List ℚ)
    (plbc : List (String × ℚ)) (config : RaceConfig) (res : SimResult)
    (name : String) (n : Nat)
    (hnd : (rosterNames config).Nodup)
    (hmem : name ∈ rosterNames config)
    (hret : retirementLap config name = some n)
    (hn : n ≤ config.total_laps)
    (h : simulate maxLen predict plbc config = some res) :
    (∀ e ∈ res.timeline, n ≤ e.lap → e.lap_times.lookup name = none) ∧
    ∃ r ∈ res.classification, r.driver = name ∧ r.status = "DNF" ∧
      r.pos = none ∧
      r.total_time =
        timelineSum (res.timeline.filter fun e => decide (e.lap < n))
          name ∧
      r.total_time = timelineSum res.timeline name := by
  obtain ⟨es, hinv, hcl⟩ := simulate_inv maxLen predict plbc config res
    hnd h
  have habs : ∀ e ∈ res.timeline, n ≤ e.lap →
      e.lap_times.lookup name = none := by
    intro e he hle
    cases hv : e.lap_times.lookup name with
    | none => rfl
    | some v =>
      have hretby : retiredBy config e.lap name :=
        (retiredBy_iff_retirementLap config e.lap name).mpr ⟨n, hret, hle⟩
      exact absurd hretby (hinv.entries_run e he name v hv)
  refine ⟨habs, ?_⟩
  have hretby : retiredBy config config.total_laps name :=
    (retiredBy_iff_retirementLap config config.total_laps name).mpr
      ⟨n, hret, hn⟩
  have hrun : (getSt es.state name).running = false :=
    (hinv.running_iff name hmem).mpr hretby
  have hord : name ∈ es.order := hinv.order_perm.mem_iff.mpr hmem
  have hmemB : name ∈ es.order.filter
      fun m => !(getSt es.state m).running := by
    rw [List.mem_filter]
    refine ⟨hord, ?_⟩
    rw [hrun]
    rfl
  refine ⟨⟨none, name, (getSt es.state name).team,
    (getSt es.state name).total_time, "DNF"⟩, ?_, rfl, rfl, rfl, ?_, ?_⟩
  · rw [hcl]
    refine List.mem_append_right _ ?_
    rw [dnfRows_eq]
    exact List.mem_map_of_mem _ hmemB
  · show (getSt es.state name).total_time = _
    rw [hinv.total_eq name]
    refine (timelineSum_eq_filter res.timeline name _ ?_).symm
    intro e he hp
    have hle : n ≤ e.lap := by
      have := of_decide_eq_false hp
      omega
    exact habs e he hle
  · show (getSt es.state name).total_time = _
    exact hinv.total_eq name

/-- Witness for C4: in cfgC4 driver B retires on lap 2 of 3; B is absent
from the lap_times of every entry from lap 2 on, and is classified DNF
with no position and the pre-retirement total. -/
theorem c4_witness :
    (simulate 5 (constPred 90 5) [] cfgC4).map
        (fun res => decide
          ((∀ e ∈ res.timeline, 2 ≤ e.lap →
              e.lap_times.lookup "B" = none) ∧
            ∃ r ∈ res.classification, r.driver = "B" ∧
              r.status = "DNF" ∧ r.pos = none ∧
              r.total_time =
                timelineSum
                  (res.timeline.filter fun e => decide (e.lap < 2)) "B" ∧
              r.total_time = timelineSum res.timeline "B")) =
      some true := by
  cases h : simulate 5 (constPred 90 5) [] cfgC4 with
  | none => exact absurd h (by with_unfolding_all decide)
  | some res =>
    have hc := c4_retirement 5 (constPred 90 5) [] cfgC4 res "B" 2
      (by with_unfolding_all decide) (by with_unfolding_all decide)
      (by with_unfolding_all decide) (by with_unfolding_all decide) h
    show some (decide _) = some true
    rw [decide_eq_true hc]

/-! ### Claim C7 -/

/-- Claim C7: the final classification contains exactly the configured
drivers; it is the Finished block followed by the DNF block; the Finished
rows carry positions 1..k with no gaps and appear in ascending
total_time; DNF rows carry no position; the two block sizes add up to the
driver count; and the DNF rows are ordered by descending retirement lap,
so an earlier retirement yields a later (worse) place in the list. -/
theorem c7_final_classification (maxLen : Nat)
    (predict : List Step → List ℚ) (plbc : List (String × ℚ))
    (config : RaceConfig) (res : SimResult)
    (hnd : (rosterNames config).Nodup)
    (h : simulate maxLen predict plbc config = some res) :
    ((res.classification.map (·.driver)).Perm (rosterNames config)) ∧
    res.classification =
      (res.classification.filter fun r => r.status == "Finished") ++
        (res.classification.filter fun r => r.status == "DNF") ∧
    ((res.classification.filter fun r => r.status == "Finished").map
        (·.pos)) =
      (List.range' 1
        (res.classification.filter fun r =>
          r.status == "Finished").length).map some ∧
    ((res.classification.filter fun r => r.status == "Finished").map
      (·.total_time)).Pairwise (· ≤ ·) ∧
    (∀ r ∈ res.classification.filter fun r => r.status == "DNF",
      r.pos = none) ∧
    (res.classification.filter fun r => r.status == "Finished").length +
        (res.classification.filter fun r => r.status == "DNF").length =
      config.drivers.length ∧
    ((res.classification.filter fun r => r.status == "DNF").map
        fun r => (retirementLap config r.driver).getD 0).Pairwise
      (fun a b => b ≤ a) := by
  obtain ⟨es, hinv, hcl⟩ := simulate_inv maxLen predict plbc config res
    hnd h
  have hArun : ∀ m ∈ es.order.filter
      (fun m => (getSt es.state m).running),
      (getSt es.state m).running = true :=
    fun m hm => (List.mem_filter.mp hm).2
  have hBnot : ∀ m ∈ es.order.filter
      (fun m => !(getSt es.state m).running),
      (getSt es.state m).running = false := by
    intro m hm
    have hb := (List.mem_filter.mp hm).2
    cases hx : (getSt es.state m).running
    · rfl
    · rw [hx] at hb
      exact absurd hb (by simp)
  have hFR : finishRows es.state es.order 1 =
      finishRows es.state
        (es.order.filter fun m => (getSt es.state m).running) 1 := by
    conv_lhs => rw [hinv.order_split]
    rw [finishRows_append _ _ _ 1 hArun,
      finishRows_not_run _ _ _ hBnot, List.append_nil]
  have hclass : res.classification =
      finishRows es.state
        (es.order.filter fun m => (getSt es.state m).running) 1 ++
        dnfRows es.state es.order := by
    rw [hcl, hFR]
  have hfF : (res.classification.filter
      fun r => r.status == "Finished") =
      finishRows es.state
        (es.order.filter fun m => (getSt es.state m).running) 1 := by
    rw [hclass, List.filter_append]
    have h1 : ((finishRows es.state
        (es.order.filter fun m => (getSt es.state m).running) 1).filter
          fun r => r.status == "Finished") =
        finishRows es.state
          (es.order.filter fun m => (getSt es.state m).running) 1 :=
      List.filter_eq_self.mpr (by
        intro r hr
        rw [(mem_finishRows _ _ _ r hr).1]
        exact beq_self_eq_true _)
    have h2 : ((dnfRows es.state es.order).filter
        fun r => r.status == "Finished") = [] :=
      List.filter_eq_nil_iff.mpr (by
        intro r hr
        rw [(mem_dnfRows _ _ r hr).1]
        decide)
    rw [h1, h2, List.append_nil]
  have hfD : (res.classification.filter fun r => r.status == "DNF") =
      dnfRows es.state es.order := by
    rw [hclass, List.filter_append]
    have h1 : ((finishRows es.state
        (es.order.filter fun m => (getSt es.state m).running) 1).filter
          fun r => r.status == "DNF") = [] :=
      List.filter_eq_nil_iff.mpr (by
        intro r hr
        rw [(mem_finishRows _ _ _ r hr).1]
        decide)
    have h2 : ((dnfRows es.state es.order).filter
        fun r => r.status == "DNF") = dnfRows es.state es.order :=
      List.filter_eq_self.mpr (by
        intro r hr
        rw [(mem_dnfRows _ _ r hr).1]
        exact beq_self_eq_true _)
    rw [h1, h2, List.nil_append]
  have hlenA : (finishRows es.state
      (es.order.filter fun m => (getSt es.state m).running) 1).length =
      (es.order.filter fun m => (getSt es.state m).running).length := by
    have hh := congrArg List.length
      (finishRows_map_driver es.state _ 1 hArun)
    rwa [List.length_map] at hh
  have hlenD : (dnfRows es.state es.order).length =
      (es.order.filter fun m => !(getSt es.state m).running).length := by
    have hh := congrArg List.length (dnfRows_map_driver es.state es.order)
    rwa [List.length_map] at hh
  refine ⟨?_, ?_, ?_, ?_, ?_, ?_, ?_⟩
  · have hmapdrv : res.classification.map (·.driver) =
        (es.order.filter fun m => (getSt es.state m).running) ++
          (es.order.filter fun m => !(getSt es.state m).running) := by
      rw [hclass, List.map_append, finishRows_map_driver _ _ _ hArun,
        dnfRows_map_driver]
    rw [hmapdrv, ← hinv.order_split]
    exact hinv.order_perm
  · rw [hfF, hfD]
    exact hclass
  · rw [hfF, hlenA]
    exact finishRows_map_pos es.state _ 1 hArun
  · rw [hfF, finishRows_map_total es.state _ 1 hArun]
    exact hinv.run_sorted.map _ (fun a b hab => hab)
  · rw [hfD]
    intro r hr
    exact (mem_dnfRows _ _ r hr).2.1
  · rw [hfF, hfD, hlenA, hlenD]
    have h1 : ((es.order.filter fun m => (getSt es.state m).running) ++
        (es.order.filter fun m => !(getSt es.state m).running)).length =
        es.order.length := by
      rw [← hinv.order_split]
    rw [List.length_append] at h1
    rw [h1, hinv.order_perm.length_eq]
    show (rosterNames config).length = config.drivers.length
    unfold rosterNames
    rw [List.length_map]
  · rw [hfD, dnfRows_map_retlap config]
    exact hinv.ret_sorted

/-- Witness for C7 on the concrete cfgC4 race: one finisher, one DNF. -/
theorem c7_witness :
    (simulate 4 (constPred 90 4) [] cfgC4).map
        (fun res => decide
          (((res.classification.map (·.driver)).Perm
              (rosterNames cfgC4)) ∧
            res.classification =
              (res.classification.filter
                fun r => r.status == "Finished") ++
                (res.classification.filter fun r => r.status == "DNF") ∧
            ((res.classification.filter
                fun r => r.status == "Finished").map (·.pos)) =
              (List.range' 1
                (res.classification.filter fun r =>
                  r.status == "Finished").length).map some ∧
            ((res.classification.filter
              fun r => r.status == "Finished").map
                (·.total_time)).Pairwise (· ≤ ·) ∧
            (∀ r ∈ res.classification.filter fun r => r.status == "DNF",
              r.pos = none) ∧
            (res.classification.filter
                fun r => r.status == "Finished").length +
              (res.classification.filter
                fun r => r.status == "DNF").length =
              cfgC4.drivers.length ∧
            ((res.classification.filter fun r => r.status == "DNF").map
                fun r => (retirementLap cfgC4 r.driver).getD 0).Pairwise
              (fun a b => b ≤ a))) =
      some true := by
  cases h : simulate 4 (constPred 90 4) [] cfgC4 with
  | none => exact absurd h (by with_unfolding_all decide)
  | some res =>
    have hc := c7_final_classification 4 (constPred 90 4) [] cfgC4 res
      (by with_unfolding_all decide) h
    show some (decide _) = some true
    rw [decide_eq_true hc]

end F1Sim
